import Mathlib

/-! GDML: the node rules of `lang/exprs/AST.cpp` and the compiler state of
`compiler/Compiler.cpp`.

A shallow embedding of the parsing rules (`pull`) and of the typecheck pass
(`typecheck`) of the expression nodes of `src/lang/exprs/AST.cpp`, and of the
type registry, the codegen name-scope stack and the formatter of
`src/compiler/Compiler.cpp`.

The token cursor (`Stream`, `Token`), the parse frame (`Rollback`) and the unit
parser (`UnitParser`) are declared in headers that are not part of the sources
at hand; they are modelled after their contract in the specification and each
such definition says so in its doc comment.  `Expr::pull` and the virtual
`Expr::typecheck` are taken as parameters of the rules that call them; for the
whole pass the virtual call is the dispatch `Expr.typecheck` over the tree of
nodes.
-/

namespace GDML

/-! ## Token cursor -/

/-- Modelled from the spec: the keywords the node rules ask for
(`Keyword::Export`, `Keyword::Import`, `Keyword::From`, `Keyword::Return`). -/
inductive Keyword
  | Export
  | Import
  | From
  | Return
  deriving DecidableEq, Repr

/-- Modelled from the spec: the literal variant `Lit`.  The source names only
its alternative `StrLit`; `Other` stands for every alternative that is not a
string literal. -/
inductive Lit
  | StrLit (value : String)
  | Other (spelling : String)
  deriving DecidableEq, Repr

/-- Modelled from the spec: one element of the token cursor's sequence.
`Space` is whitespace or a comment, the material `Token::skipToNext` steps
over; the other elements are lexical tokens. -/
inductive Token
  | Space
  | Punct (c : Char)
  | Kw (k : Keyword)
  | Ident (path : String)
  | Literal (lit : Lit)
  deriving DecidableEq, Repr

/-- Modelled from the spec: a typed parse failure.  `tokenMismatch` is the failure of a token-level `pull`
(its wording is not part of the sources at hand); `message` is an error built
by `Rollback::error(text)`. -/
inductive ParseError
  | tokenMismatch
  | message (text : String)
  deriving DecidableEq, Repr

/-- Modelled from the spec: `ParseResult<T>`, a value or a parse error. -/
inductive ParseResult (α : Type)
  | ok (value : α)
  | error (err : ParseError)
  deriving DecidableEq, Repr

/-- The boolean reading of a result (`if (!Token::pullSemicolons(stream))`). -/
def ParseResult.isOk {α : Type} : ParseResult α → Bool
  | .ok _ => true
  | .error _ => false

/-- What a rule leaves behind when run from a cursor position: its result and
the new cursor position.  `none` means `stream.debugTick()` stopped the run
(the per-iteration fuel of a loop was used up) and no result was returned. -/
abbrev Outcome (α : Type) := Option (ParseResult α × Nat)

/-- A grammar rule `T::pull(Stream&)`: the stream is its token sequence (never
changed) and a cursor position (the mutable part). -/
abbrev Rule (α : Type) := List Token → Nat → Outcome α

/-- Number of leading `Space` elements. -/
def Token.spaces : List Token → Nat
  | Token.Space :: ts => Token.spaces ts + 1
  | _ => 0

/-- Modelled from the spec: `Token::skipToNext(stream)` moves the cursor to
the next lexical token (or to the end of input). -/
def Token.skipToNext (src : List Token) (pos : Nat) : Nat :=
  pos + Token.spaces (src.drop pos)

/-- Modelled from the spec: `Token::peek(stream)`, the non-consuming look at
the next lexical token; `none` at end of input. -/
def Token.peek (src : List Token) (pos : Nat) : Option Token :=
  src[Token.skipToNext src pos]?

/-- Modelled from the spec: `Token::peek(tk, stream)`, the non-consuming test
whether the next lexical token is `tk`. -/
def Token.peekIs (tk : Token) (src : List Token) (pos : Nat) : Bool :=
  decide (Token.peek src pos = some tk)

/-- Modelled from the spec: `Token::draw(tk, stream)`, consume-if-match with a
boolean result. -/
def Token.draw (tk : Token) (src : List Token) (pos : Nat) : Bool × Nat :=
  if Token.peekIs tk src pos then (true, Token.skipToNext src pos + 1) else (false, pos)

/-- Modelled from the spec: `Token::pull(tk, stream)`, consume-or-fail; a
failed pull consumes nothing. -/
def Token.pull (tk : Token) (src : List Token) (pos : Nat) : ParseResult Unit × Nat :=
  if Token.peekIs tk src pos then (.ok (), Token.skipToNext src pos + 1)
  else (.error .tokenMismatch, pos)

/-- Modelled from the spec: `Token::pull<Lit>(stream)`, consume a literal of
any kind or fail. -/
def Token.pullLit (src : List Token) (pos : Nat) : ParseResult Lit × Nat :=
  match Token.peek src pos with
  | some (Token.Literal lit) => (.ok lit, Token.skipToNext src pos + 1)
  | _ => (.error .tokenMismatch, pos)

/-- Draws `;` for as long as one is next (at most `n` times). -/
def Token.drawSemicolons (src : List Token) : Nat → Nat → Nat
  | 0, pos => pos
  | n + 1, pos =>
    match Token.draw (Token.Punct ';') src pos with
    | (true, p) => Token.drawSemicolons src n p
    | (false, _) => pos

/-- Modelled from the spec: `Token::pullSemicolons(stream)`, consume
one-or-more statement terminators; fails, consuming nothing, when the next
token is not `;`. -/
def Token.pullSemicolons (src : List Token) (pos : Nat) : ParseResult Unit × Nat :=
  match Token.pull (Token.Punct ';') src pos with
  | (.error e, p) => (.error e, p)
  | (.ok _, p) => (.ok (), Token.drawSemicolons src src.length p)

/-- Modelled from the spec: `Token::pullSeparator(sep, terminator, stream)`
tells which of the two tokens ends the current list item.  The separator is
consumed and `false` reported; at the terminator `true` is reported and the
terminator stays in the stream, since `ImportExpr::pull` pulls the `}` itself
right after its loop (AST.cpp 74); with neither next the call fails, consuming
nothing. -/
def Token.pullSeparator (sep terminator : Token) (src : List Token) (pos : Nat) :
    ParseResult Bool × Nat :=
  if Token.peekIs sep src pos then (.ok false, Token.skipToNext src pos + 1)
  else if Token.peekIs terminator src pos then (.ok true, pos)
  else (.error .tokenMismatch, pos)

/-! ## Parse frame -/

/-- Modelled from the spec: the transactional parse frame opened by
`Rollback rb(stream)`.  It snapshots the cursor at `pos` and runs the rest of
the rule (`body`, which receives the snapshot).  Every successful `return` of
the node rules is `rb.commit<T>(...)`, which makes the cursor advance
permanent; every other way out (`GEODE_UNWRAP` returning the error,
`rb.error(...)`) leaves the frame uncommitted and its destructor restores the
cursor to the snapshot. -/
def Rollback.frame {α : Type} (pos : Nat) (body : Nat → Outcome α) : Outcome α :=
  match body pos with
  | some (.error e, _) => some (.error e, pos)
  | r => r

/-- Modelled from the spec: the macros `GEODE_UNWRAP` / `GEODE_UNWRAP_INTO`,
the explicit result propagation: on an error return it from the
enclosing rule, otherwise go on with the value and the new cursor. -/
def unwrapInto {α β : Type} (r : Outcome α) (k : α → Nat → Outcome β) : Outcome β :=
  match r with
  | none => none
  | some (.error e, p) => some (.error e, p)
  | some (.ok a, p) => k a p

/-! ## Nodes -/

/-- Modelled from the spec: the source range of a node, the cursor positions of the frame's snapshot and
of its commit. -/
abbrev Range := Nat × Nat

/-- Modelled from the spec: node `IdentExpr`, an identifier path and where it
stands. -/
structure IdentExpr where
  path : String
  range : Range
  deriving DecidableEq, Repr

/-- Modelled from the spec: node `AttrExpr`, an identifier plus an optional
value expression. -/
structure AttrExpr (E : Type) where
  attribute_ : IdentExpr
  value : Option E
  range : Range
  deriving DecidableEq, Repr

/-- Modelled from the spec: node `ExportExpr`, which wraps one inner
expression. -/
structure ExportExpr (E : Type) where
  expr : E
  range : Range
  deriving DecidableEq, Repr

/-- Modelled from the spec: node `ImportExpr`, the file named after `from` and
the identifier paths asked for (empty: everything). -/
structure ImportExpr where
  from_ : String
  imports : List IdentExpr
  range : Range
  deriving DecidableEq, Repr

/-- Modelled from the spec: node `ListExpr`, a statement list. -/
structure ListExpr (E : Type) where
  exprs : List E
  range : Range
  deriving DecidableEq, Repr

/-- Modelled from the spec: node `ReturnExpr`, an optional value and an
optional `from` label. -/
structure ReturnExpr (E : Type) where
  expr : Option E
  from_ : Option IdentExpr
  range : Range
  deriving DecidableEq, Repr

/-- Modelled from the spec: node `BlockExpr`, one statement list between
braces. -/
structure BlockExpr (E : Type) where
  expr : ListExpr E
  range : Range
  deriving DecidableEq, Repr

/-- Modelled from the spec: node `AST`, the top-level compilation unit. -/
structure AST (E : Type) where
  exprs : List E
  range : Range
  deriving DecidableEq, Repr

/-- Modelled from the spec: `IdentExpr::pull`, which parses one identifier
path (one `Ident` element of the token sequence) inside its own frame. -/
def IdentExpr.pull : Rule IdentExpr := fun src pos =>
  Rollback.frame pos fun start =>
    match Token.peek src start with
    | some (Token.Ident path) =>
      some (.ok ⟨path, (start, Token.skipToNext src start + 1)⟩, Token.skipToNext src start + 1)
    | _ => some (.error .tokenMismatch, start)

/-! ## Node rules (`pull`) -/

/-- Embeds `AttrExpr::pull` (AST.cpp 9-19). -/
def AttrExpr.pull {E : Type} (Expr_pull : Rule E) (IdentExpr_pull : Rule IdentExpr) :
    Rule (AttrExpr E) := fun src pos =>
  Rollback.frame pos fun start =>
    unwrapInto (some (Token.pull (Token.Punct '@') src start)) fun _ p1 =>
    unwrapInto (IdentExpr_pull src p1) fun ident p2 =>
    match Token.draw (Token.Punct '(') src p2 with
    | (true, p3) =>
      unwrapInto (Expr_pull src p3) fun value p4 =>
      unwrapInto (some (Token.pull (Token.Punct ')') src p4)) fun _ p5 =>
      some (.ok ⟨ident, some value, (start, p5)⟩, p5)
    | (false, p3) => some (.ok ⟨ident, none, (start, p3)⟩, p3)

/-- Embeds `ExportExpr::pull` (AST.cpp 34-39). -/
def ExportExpr.pull {E : Type} (Expr_pull : Rule E) : Rule (ExportExpr E) := fun src pos =>
  Rollback.frame pos fun start =>
    unwrapInto (some (Token.pull (Token.Kw Keyword.Export) src start)) fun _ p1 =>
    unwrapInto (Expr_pull src p1) fun expr p2 =>
    some (.ok ⟨expr, (start, p2)⟩, p2)

/-- The `while (true)` loop of `ImportExpr::pull` (AST.cpp 65-73): one
identifier, then `Token::pullSeparator(',', '}', stream)`, until that reports
the terminator.  The first argument is the fuel `stream.debugTick()` checks
once per iteration. -/
def ImportExpr.pullLoop (IdentExpr_pull : Rule IdentExpr) (src : List Token) :
    Nat → Nat → List IdentExpr → Outcome (List IdentExpr)
  | 0, _, _ => none
  | fuel + 1, pos, imports =>
    unwrapInto (IdentExpr_pull src pos) fun ident p1 =>
    unwrapInto (some (Token.pullSeparator (Token.Punct ',') (Token.Punct '}') src p1))
      fun brk p2 =>
    if brk then some (.ok (imports ++ [ident]), p2)
    else ImportExpr.pullLoop IdentExpr_pull src fuel p2 (imports ++ [ident])

/-- The import set of `ImportExpr::pull` (AST.cpp 61-75): `*`, or `{`, the
loop and `}`. -/
def ImportExpr.pullImports (IdentExpr_pull : Rule IdentExpr) (fuel : Nat) :
    Rule (List IdentExpr) := fun src pos =>
  match Token.pull (Token.Punct '*') src pos with
  | (.ok _, p1) => some (.ok [], p1)
  | (.error _, p1) =>
    unwrapInto (some (Token.pull (Token.Punct '{') src p1)) fun _ p2 =>
    unwrapInto (ImportExpr.pullLoop IdentExpr_pull src fuel p2 []) fun imports p3 =>
    unwrapInto (some (Token.pull (Token.Punct '}') src p3)) fun _ p4 =>
    some (.ok imports, p4)

/-- Embeds `ImportExpr::pull` (AST.cpp 58-84). -/
def ImportExpr.pull (IdentExpr_pull : Rule IdentExpr) (fuel : Nat) : Rule ImportExpr :=
  fun src pos =>
  Rollback.frame pos fun start =>
    unwrapInto (some (Token.pull (Token.Kw Keyword.Import) src start)) fun _ p1 =>
    unwrapInto (ImportExpr.pullImports IdentExpr_pull fuel src p1) fun imports p2 =>
    unwrapInto (some (Token.pull (Token.Kw Keyword.From) src p2)) fun _ p3 =>
    Rollback.frame p3 fun litStart =>
      unwrapInto (some (Token.pullLit src litStart)) fun lit p4 =>
      match lit with
      | Lit.StrLit value => some (.ok ⟨value, imports, (start, p4)⟩, p4)
      | _ => some (.error (.message "Expected string literal"), litStart)

/-- The `while (true)` loop of `ListExpr::pull` (AST.cpp 137-149); `start` is
the snapshot of the frame `rb`, the first `Nat` the fuel of `debugTick`. -/
def ListExpr.pullLoop {E : Type} (Expr_pull : Rule E) (src : List Token) (start : Nat) :
    Nat → Nat → List E → Outcome (List E)
  | 0, _, _ => none
  | fuel + 1, pos, list =>
    unwrapInto (Expr_pull src pos) fun expr p1 =>
    match Token.pullSemicolons src p1 with
    | (semis, p2) =>
      if !semis.isOk && !Token.peekIs (Token.Punct '}') src p2 then
        some (.error (.message "Expected semicolon"), start)
      else if (Token.peek src p2).isNone || Token.peekIs (Token.Punct '}') src p2 then
        some (.ok (list ++ [expr]), p2)
      else ListExpr.pullLoop Expr_pull src start fuel p2 (list ++ [expr])

/-- Embeds `ListExpr::pull` (AST.cpp 130-151). -/
def ListExpr.pull {E : Type} (Expr_pull : Rule E) (fuel : Nat) : Rule (ListExpr E) :=
  fun src pos =>
  Rollback.frame pos fun start =>
    if Token.peekIs (Token.Punct '}') src start then
      some (.ok ⟨[], (start, start)⟩, start)
    else
      unwrapInto (ListExpr.pullLoop Expr_pull src start fuel start []) fun list p =>
      some (.ok ⟨list, (start, p)⟩, p)

/-- Embeds `ReturnExpr::pull` (AST.cpp 166-178). -/
def ReturnExpr.pull {E : Type} (Expr_pull : Rule E) (IdentExpr_pull : Rule IdentExpr) :
    Rule (ReturnExpr E) := fun src pos =>
  Rollback.frame pos fun start =>
    unwrapInto (some (Token.pull (Token.Kw Keyword.Return) src start)) fun _ p1 =>
    unwrapInto
      (if Token.peekIs (Token.Punct ';') src p1 then some (.ok none, p1)
       else unwrapInto (Expr_pull src p1) fun e p => some (.ok (some e), p)) fun expr p2 =>
    match Token.draw (Token.Kw Keyword.From) src p2 with
    | (true, p3) =>
      unwrapInto (IdentExpr_pull src p3) fun label p4 =>
      some (.ok ⟨expr, some label, (start, p4)⟩, p4)
    | (false, p3) => some (.ok ⟨expr, none, (start, p3)⟩, p3)

/-- Embeds `BlockExpr::pull` (AST.cpp 195-201). -/
def BlockExpr.pull {E : Type} (Expr_pull : Rule E) (fuel : Nat) : Rule (BlockExpr E) :=
  fun src pos =>
  Rollback.frame pos fun start =>
    unwrapInto (some (Token.pull (Token.Punct '{') src start)) fun _ p1 =>
    unwrapInto (ListExpr.pull Expr_pull fuel src p1) fun expr p2 =>
    unwrapInto (some (Token.pull (Token.Punct '}') src p2)) fun _ p3 =>
    some (.ok ⟨expr, (start, p3)⟩, p3)

/-- The `while (true)` loop of `AST::pull` (AST.cpp 220-228). -/
def AST.pullLoop {E : Type} (Expr_pull : Rule E) (src : List Token) :
    Nat → Nat → List E → Outcome (List E)
  | 0, _, _ => none
  | fuel + 1, pos, exprs =>
    unwrapInto (Expr_pull src pos) fun expr p1 =>
    unwrapInto (some (Token.pullSemicolons src p1)) fun _ p2 =>
    if (Token.peek src p2).isNone then some (.ok (exprs ++ [expr]), p2)
    else AST.pullLoop Expr_pull src fuel p2 (exprs ++ [expr])

/-- Embeds `AST::pull` (AST.cpp 216-230): `Token::skipToNext` runs before the frame
is opened. -/
def AST.pull {E : Type} (Expr_pull : Rule E) (fuel : Nat) : Rule (AST E) := fun src pos =>
  Rollback.frame (Token.skipToNext src pos) fun start =>
    unwrapInto (AST.pullLoop Expr_pull src fuel start []) fun exprs p =>
    some (.ok ⟨exprs, (start, p)⟩, p)

/-! ## Token sequences of the form `e1; e2; ...; en` -/

/-- The token at `pos` is the first token of an expression: a lexical token
that is neither `;` nor `}`. -/
def startsExpr (src : List Token) (pos : Nat) : Prop :=
  ∃ t, src[pos]? = some t ∧ t ≠ Token.Space ∧ t ≠ Token.Punct ';' ∧ t ≠ Token.Punct '}'

/-- The tokens from `pos` are `e1; e2; ...; en` (n ≥ 1): `Expr::pull` parses
`e1` from `pos`, ending at the position listed with it, a single `;` stands
there, the next expression starts right after it, and so on; `last` is the
position right after `en`. -/
def parsesSeq {E : Type} (Expr_pull : Rule E) (src : List Token) :
    Nat → List (E × Nat) → Nat → Prop
  | _, [], _ => False
  | pos, [(e, q)], last =>
    startsExpr src pos ∧ Expr_pull src pos = some (.ok e, q) ∧ q = last
  | pos, (e, q) :: s :: rest, last =>
    startsExpr src pos ∧ Expr_pull src pos = some (.ok e, q) ∧
      src[q]? = some (Token.Punct ';') ∧ parsesSeq Expr_pull src (q + 1) (s :: rest) last

/-! ## Types, scopes and the unit parser -/

/-- Modelled from the spec: the kind discriminant of a type. -/
inductive TypeKind
  | Void
  | Primitive
  | Named
  deriving DecidableEq, Repr

/-- Modelled from the spec: `Type`, a value with a kind, an optional declared
name and an "exportable" flag. -/
structure Ty where
  kind : TypeKind
  name : Option String
  exportable : Bool
  deriving DecidableEq, Repr

/-- Modelled from the spec: the `Void` type, `Type(VoidType(), nullptr)` and
also what `Primitive::Void` converts to. -/
def Ty.void : Ty := ⟨TypeKind.Void, none, false⟩

/-- Modelled from the spec: `Type::isExportable()`, the exportable flag. -/
def Ty.isExportable (ty : Ty) : Bool := ty.exportable

/-- Modelled from the spec: `Type::getName()`, the optional declared name. -/
def Ty.getName (ty : Ty) : Option String := ty.name

/-- Modelled from the spec: `Type::toString()`, the declared name of a type
that has one. -/
def Ty.toString (ty : Ty) : String := ty.name.getD "void"

/-- Modelled from the spec: a name→Type mapping, kept as the list of its
types, each standing under its own declared name. -/
abbrev TypeTable := List Ty

/-- Look a name up in a table. -/
def TypeTable.get (tbl : TypeTable) (name : String) : Option Ty :=
  tbl.find? fun t => decide (t.name = some name)

/-- Put a type into a table under its name (a type without a name has no
entry to stand under). -/
def TypeTable.insert (tbl : TypeTable) (ty : Ty) : TypeTable :=
  match ty.name with
  | none => tbl
  | some n => ty :: tbl.filter fun t => decide (t.name ≠ some n)

/-- No name stands twice in the table: it is a mapping. -/
def TypeTable.IsMapping (tbl : TypeTable) : Prop :=
  (tbl.filterMap Ty.name).Nodup

instance TypeTable.decidableIsMapping (tbl : TypeTable) : Decidable tbl.IsMapping :=
  inferInstanceAs (Decidable (tbl.filterMap Ty.name).Nodup)

/-- Modelled from the spec: one frame of the typecheck scope stack, a
name→Type mapping plus the flag that tells the root (file) scope from a nested
one; `label` is the first argument of `pushScope`. -/
structure Scope where
  label : Option String
  isRoot : Bool
  types : TypeTable
  deriving DecidableEq, Repr

/-- Modelled from the spec: a diagnostic reported through
`UnitParser::error(range, message)`. -/
structure Diagnostic where
  range : Range
  msg : String
  deriving DecidableEq, Repr

/-- Modelled from the spec: the parsed unit of one source file, owner of the
file's exported-type table. -/
structure ParsedSrc where
  exportedTypes : TypeTable
  deriving DecidableEq, Repr

/-- Modelled from the spec: `ParsedSrc::getExportedTypes()`, every entry of
the exported-type table. -/
def ParsedSrc.getExportedTypes (parsed : ParsedSrc) : List Ty := parsed.exportedTypes

/-- Modelled from the spec: `ParsedSrc::getExportedType(path)`, the type
exported under a name. -/
def ParsedSrc.getExportedType (parsed : ParsedSrc) (path : String) : Option Ty :=
  parsed.exportedTypes.get path

/-- Modelled from the spec: `ParsedSrc::addExportedType` registers the type
under its name in the file's exported-type table. -/
def ParsedSrc.addExportedType (parsed : ParsedSrc) (ty : Ty) : ParsedSrc :=
  ⟨parsed.exportedTypes.insert ty⟩

/-- Modelled from the spec: the state of `UnitParser` the typecheck pass reads
and writes: the search directory of the current file (`getSrc()`), its parsed
unit (`getParsedSrc()`), the scope stack (innermost frame first) and the
diagnostics reported so far (the shared sink). -/
structure UnitParser where
  searchDir : String
  parsed : ParsedSrc
  scopes : List Scope
  errors : List Diagnostic
  deriving DecidableEq, Repr

/-- Modelled from the spec: `UnitParser::error(range, message)` appends a
diagnostic and changes nothing else. -/
def UnitParser.error (state : UnitParser) (range : Range) (msg : String) : UnitParser :=
  { state with errors := state.errors ++ [⟨range, msg⟩] }

/-- Modelled from the spec: `UnitParser::isRootScope()`, whether the innermost
frame is flagged root. -/
def UnitParser.isRootScope (state : UnitParser) : Bool :=
  match state.scopes with
  | [] => false
  | s :: _ => s.isRoot

/-- Modelled from the spec: `UnitParser::getType(name, localOnly)` checks only
the innermost frame if `localOnly`, else walks outward until found. -/
def UnitParser.getType (state : UnitParser) (name : String) (localOnly : Bool) : Option Ty :=
  match state.scopes with
  | [] => none
  | s :: outer =>
    if localOnly then s.types.get name
    else (s :: outer).findSome? fun f => f.types.get name

/-- Modelled from the spec: `UnitParser::pushType(type)` inserts into the
innermost frame. -/
def UnitParser.pushType (state : UnitParser) (ty : Ty) : UnitParser :=
  match state.scopes with
  | [] => state
  | s :: outer => { state with scopes := { s with types := s.types.insert ty } :: outer }

/-- Modelled from the spec: `UnitParser::pushScope(label, isRoot)` pushes a new
empty frame. -/
def UnitParser.pushScope (state : UnitParser) (label : Option String) (isRoot : Bool) :
    UnitParser :=
  { state with scopes := ⟨label, isRoot, []⟩ :: state.scopes }

/-- Modelled from the spec: `UnitParser::popScope()` drops the innermost frame. -/
def UnitParser.popScope (state : UnitParser) : UnitParser :=
  { state with scopes := state.scopes.tail }

/-- The call `state.getParsedSrc()->addExportedType(state, ty)`. -/
def UnitParser.addExportedType (state : UnitParser) (ty : Ty) : UnitParser :=
  { state with parsed := state.parsed.addExportedType ty }

/-- What the typecheck pass reaches outside the current unit, for a source-file
type `S`.  Modelled from the spec: `resolve` is the path a `from` string names
relative to a search directory, `srcFrom` is `SrcFile::from` (the file or a
load error), `parse` is `UnitParser::parse(shared, src)`: it runs the whole
pipeline on the file, may report into the shared sink (given and returned) and
yields the file's parsed unit; `none` when it does not return. -/
structure Loader (S : Type) where
  resolve : String → String → String
  srcFrom : String → Except String S
  parse : List Diagnostic → S → Option (ParsedSrc × List Diagnostic)

/-- The virtual `Expr::typecheck(UnitParser&)` of a child expression: the type
and the state it leaves; `none` when the call does not return. -/
abbrev Typecheck (E : Type) := E → UnitParser → Option (Ty × UnitParser)

/-! ## Typecheck of the nodes -/

/-- Embeds `AttrExpr::typecheck` (AST.cpp 21-26). -/
def AttrExpr.typecheck {E : Type} (Expr_typecheck : Typecheck E) (self : AttrExpr E)
    (state : UnitParser) : Option (Ty × UnitParser) :=
  match self.value with
  | some value =>
    match Expr_typecheck value state with
    | none => none
    | some (_, s1) => some (Ty.void, s1)
  | none => some (Ty.void, state)

/-- Embeds `ExportExpr::typecheck` (AST.cpp 41-51). -/
def ExportExpr.typecheck {E : Type} (Expr_typecheck : Typecheck E) (self : ExportExpr E)
    (state : UnitParser) : Option (Ty × UnitParser) :=
  match Expr_typecheck self.expr state with
  | none => none
  | some (ty, s1) =>
    let s2 :=
      if !ty.isExportable then s1.error self.range "Only named structs and nodes are exportable"
      else s1
    let s3 :=
      if !s2.isRootScope then
        s2.error self.range "Export statements may only appear at top-level"
      else s2
    some (ty, s3.addExportedType ty)

/-- The diagnostic of AST.cpp 107. -/
def ImportExpr.notFound (from_ : String) (i : IdentExpr) : Diagnostic :=
  ⟨i.range, "Type \"" ++ i.path ++ "\" not found in \"" ++ from_ ++ "\""⟩

/-- The diagnostic of AST.cpp 114. -/
def ImportExpr.alreadyExists (range : Range) (ty : Ty) : Diagnostic :=
  ⟨range, "Type \"" ++ ty.toString ++ "\" already exists in this scope"⟩

/-- The loop of AST.cpp 102-109 over the listed identifiers: a resolved type
goes to `imported`, a missing one is reported. -/
def ImportExpr.resolve (parsed : ParsedSrc) (from_ : String) :
    List IdentExpr → List Ty × UnitParser → List Ty × UnitParser
  | [], acc => acc
  | i :: rest, (imported, state) =>
    match parsed.getExportedType i.path with
    | some ty => ImportExpr.resolve parsed from_ rest (imported ++ [ty], state)
    | none =>
      ImportExpr.resolve parsed from_ rest
        (imported, state.error i.range (ImportExpr.notFound from_ i).msg)

/-- One round of the loop of AST.cpp 111-120. -/
def ImportExpr.pushImported (range : Range) (state : UnitParser) (ty : Ty) : UnitParser :=
  match ty.getName with
  | some name =>
    if (state.getType name true).isSome then
      state.error range (ImportExpr.alreadyExists range ty).msg
    else state.pushType ty
  | none => state

/-- Embeds `ImportExpr::typecheck` (AST.cpp 86-122). -/
def ImportExpr.typecheck {S : Type} (env : Loader S) (self : ImportExpr)
    (state : UnitParser) : Option (Ty × UnitParser) :=
  match env.srcFrom (env.resolve state.searchDir self.from_) with
  | .error err => some (Ty.void, state.error self.range err)
  | .ok src =>
    match env.parse state.errors src with
    | none => none
    | some (parsed, log) =>
      let state := { state with errors := log }
      let (imported, state) :=
        if self.imports.isEmpty then (parsed.getExportedTypes, state)
        else ImportExpr.resolve parsed self.from_ self.imports ([], state)
      some (Ty.void, imported.foldl (ImportExpr.pushImported self.range) state)

/-- The loop `for (auto& expr : exprs) expr->typecheck(state);`. -/
def typecheckEach {E : Type} (Expr_typecheck : Typecheck E) :
    List E → UnitParser → Option UnitParser
  | [], state => some state
  | expr :: rest, state =>
    match Expr_typecheck expr state with
    | none => none
    | some (_, s1) => typecheckEach Expr_typecheck rest s1

/-- Embeds `ListExpr::typecheck` (AST.cpp 153-159). -/
def ListExpr.typecheck {E : Type} (Expr_typecheck : Typecheck E) (self : ListExpr E)
    (state : UnitParser) : Option (Ty × UnitParser) :=
  match typecheckEach Expr_typecheck self.exprs state with
  | none => none
  | some s1 => some (Ty.void, s1)

/-- Embeds `ReturnExpr::typecheck` (AST.cpp 180-187). -/
def ReturnExpr.typecheck {E : Type} (Expr_typecheck : Typecheck E) (self : ReturnExpr E)
    (state : UnitParser) : Option (Ty × UnitParser) :=
  match self.expr with
  | some expr => Expr_typecheck expr state
  | none => some (Ty.void, state)

/-- Embeds `BlockExpr::typecheck` (AST.cpp 203-209). -/
def BlockExpr.typecheck {E : Type} (Expr_typecheck : Typecheck E) (self : BlockExpr E)
    (state : UnitParser) : Option (Ty × UnitParser) :=
  match ListExpr.typecheck Expr_typecheck self.expr (state.pushScope none false) with
  | none => none
  | some (ret, s1) => some (ret, s1.popScope)

/-- Embeds `AST::typecheck` (AST.cpp 232-237). -/
def AST.typecheck {E : Type} (Expr_typecheck : Typecheck E) (self : AST E)
    (state : UnitParser) : Option (Ty × UnitParser) :=
  match typecheckEach Expr_typecheck self.exprs state with
  | none => none
  | some s1 => some (Ty.void, s1)

/-- The test of AST.cpp 112-113 for an imported type: it has a name and a type
of that name stands in the innermost frame of `state`. -/
def ImportExpr.clashes (state : UnitParser) (ty : Ty) : Bool :=
  match ty.getName with
  | some name => (state.getType name true).isSome
  | none => false

/-- A loader used in the examples: every path names a file that loads, and
parsing it reports nothing and yields the given exported-type table. -/
def Loader.fixed (tbl : TypeTable) : Loader Unit :=
  ⟨fun dir file => dir ++ "/" ++ file, fun _ => .ok (), fun log _ => some (⟨tbl⟩, log)⟩

/-- Example state: search directory `lib`, nothing exported, nothing
reported, and the given scope stack. -/
def UnitParser.sample (scopes : List Scope) : UnitParser := ⟨"lib", ⟨[]⟩, scopes, []⟩

/-- Example type: the exportable named type `name`. -/
def Ty.named (name : String) : Ty := ⟨TypeKind.Named, some name, true⟩

/-! ## Compiler: type registry, codegen name-scope stack, formatter -/

/-- Modelled from the spec: the compiler's `Type` of `Compiler.cpp`, which
carries the output-language spelling `m_cppEquivalent`. -/
structure CodegenType where
  cppEquivalent : String
  deriving DecidableEq, Repr

/-- Embeds `Type::getCodegenName` (Compiler.cpp 10-12). -/
def CodegenType.getCodegenName (ty : CodegenType) : String := ty.cppEquivalent

/-- Modelled from the spec: the error-kind code of a structured error;
`Compiler.cpp` names `Error::OK` and `Error::InternalError`. -/
inductive Error
  | OK
  | InternalError
  | Other (code : Nat)
  deriving DecidableEq, Repr

/-- Modelled from the spec: a source position (`Position { line, column }`). -/
structure Position where
  line : Nat
  column : Nat
  deriving DecidableEq, Repr

/-- Modelled from the spec: the structured error handed to `logError`: an
error-kind code, a human message, a note, a "current scope" context string, a
start position, an end position and the originating source file. -/
structure LoggedError where
  code : Error
  message : String
  note : String
  context : String
  start : Position
  stop : Position
  source : String
  deriving DecidableEq, Repr

/-- Modelled from the spec: the members of `Compiler` that `Compiler.cpp`
reads and writes: the type registry `m_types` (a map from name to type, kept
as an association list), the codegen name-scope stack `m_scope` (a vector,
outermost entry first, top of the stack last), the shared diagnostic sink
reached through `m_instance.getShared().logError` and the source
`m_instance.getSource()`. -/
structure Compiler where
  types : List (String × CodegenType)
  scope : List String
  log : List LoggedError
  source : String
  deriving DecidableEq, Repr

/-- What goes wrong when a C++ container is used outside its bounds (the
behaviour of the program is then undefined). -/
inductive Fault
  | backOfEmptyVector
  | eraseOutOfRange
  deriving DecidableEq, Repr

/-- Result of a member function that may step outside a container: its value,
or the fault. -/
inductive Checked (α : Type)
  | ok (value : α)
  | undefined (fault : Fault)
  deriving DecidableEq, Repr

/-- Modelled from the spec: `m_types.count(name)`, the number of entries of
the registry under a key (0 or 1). -/
def Compiler.count (c : Compiler) (name : String) : Nat :=
  if (c.types.lookup name).isSome then 1 else 0

/-- Embeds `Compiler::getScope` (Compiler.cpp 35-37). -/
def Compiler.getScope (c : Compiler) : List String := c.scope

/-- Embeds `Compiler::pushScope` (Compiler.cpp 39-41). -/
def Compiler.pushScope (c : Compiler) (name : String) : Compiler :=
  { c with scope := c.scope ++ [name] }

/-- Models `stack.erase(stack.end() - 2, stack.end())`: the last two
characters are removed; on a string shorter than two the range lies outside
the string. -/
def eraseLastTwo (stack : String) : Checked String :=
  if stack.data.length < 2 then .undefined Fault.eraseOutOfRange
  else .ok ⟨stack.data.take (stack.data.length - 2)⟩

/-- The text of the diagnostic of Compiler.cpp 54-56. -/
def Compiler.popMessage (name : String) : String :=
  "Attempted to pop \"" ++ name ++ "\" off the top of " ++
  "the scope stack, but it wasn't there. This is " ++
  "likely a bug within the compiler itself."

/-- Embeds `Compiler::popScope` (Compiler.cpp 43-64).  `m_scope.back()` has no
value on an empty vector and the erase needs two characters: both are faults
of the embedding. -/
def Compiler.popScope (c : Compiler) (name : String) : Checked Compiler :=
  match c.scope.getLast? with
  | none => .undefined Fault.backOfEmptyVector
  | some back =>
    if back = name then .ok { c with scope := c.scope.dropLast }
    else
      match eraseLastTwo (c.scope.foldl (fun stack s => stack ++ (s ++ "::")) "") with
      | .undefined f => .undefined f
      | .ok stack =>
        .ok { c with
          log := (c.log ++
            [⟨Error.InternalError, Compiler.popMessage name, "", "Current scope: " ++ stack,
              ⟨0, 0⟩, ⟨0, 0⟩, c.source⟩]) }

/-- The `for` loop of `Compiler::typeExists` (Compiler.cpp 71-76) over the
entries of `m_scope` that are left, with the current `testScope`. -/
def Compiler.typeExistsLoop (c : Compiler) (name : String) : List String → String → Bool
  | [], _ => false
  | scope :: rest, testScope =>
    if c.count (testScope ++ name) ≠ 0 then true
    else Compiler.typeExistsLoop c name rest (testScope ++ (scope ++ "::"))

/-- Embeds `Compiler::typeExists` (Compiler.cpp 66-78). -/
def Compiler.typeExists (c : Compiler) (name : String) : Bool :=
  if c.count name ≠ 0 then true
  else Compiler.typeExistsLoop c name c.scope ""

/-- Embeds `Compiler::getType` (Compiler.cpp 80-85); `none` is `nullptr`. -/
def Compiler.getType (c : Compiler) (name : String) : Option CodegenType :=
  if c.count name = 0 then none
  else c.types.lookup name

/-- The key the claim about name resolution speaks of: `name` qualified by the
scopes `s1, ..., sk`, that is `"s1::...::sk::" ++ name`. -/
def qualified (scopes : List String) (name : String) : String :=
  scopes.foldr (fun s rest => s ++ "::" ++ rest) name

/-- Modelled from the spec: the indentation state of `Formatter`.  The member
`m_indentation` is declared in `Compiler.hpp`, which is not part of the
sources at hand; it is kept as an integer and no wrap-around of a fixed-width
counter is modelled. -/
structure Formatter where
  indentation : Int
  deriving DecidableEq, Repr

/-- Modelled from the spec: a fresh `Formatter` starts at indentation 0. -/
def Formatter.fresh : Formatter := ⟨0⟩

/-- Embeds `Formatter::pushIndent` (Compiler.cpp 106-108). -/
def Formatter.pushIndent (f : Formatter) : Formatter := ⟨f.indentation + 4⟩

/-- Embeds `Formatter::popIndent` (Compiler.cpp 110-112). -/
def Formatter.popIndent (f : Formatter) : Formatter := ⟨f.indentation - 4⟩

/-- Embeds `Formatter::newline` (Compiler.cpp 114-118): `prettify` is the flag
`Flags::PrettifyOutput`, `stream` the text written so far; the result is the
text after the call. -/
def Formatter.newline (f : Formatter) (prettify : Bool) (stream : String) : String :=
  if prettify then stream ++ "\n" ++ String.mk (List.replicate f.indentation.toNat ' ')
  else stream

/-- One call on a `Formatter`. -/
inductive IndentCall
  | push
  | pop
  deriving DecidableEq, Repr

/-- Run one call. -/
def Formatter.call (f : Formatter) : IndentCall → Formatter
  | IndentCall.push => f.pushIndent
  | IndentCall.pop => f.popIndent

/-- Run a sequence of calls, first call first. -/
def Formatter.run (f : Formatter) (calls : List IndentCall) : Formatter :=
  calls.foldl Formatter.call f

/-- The elements `es` were pulled one after another from `pos` to `last`:
each is a result of `Expr::pull`, and after each the next token is the
statement terminator `;`, from which `Token::pullSemicolons` moves the cursor
to the start of the next element (or to `last`). -/
def pulledWithTerminators {E : Type} (Expr_pull : Rule E) (src : List Token) :
    Nat → List E → Nat → Prop
  | pos, [], last => pos = last
  | pos, e :: es, last =>
    ∃ q r, Expr_pull src pos = some (.ok e, q) ∧
      Token.peek src q = some (Token.Punct ';') ∧
      Token.pullSemicolons src q = (.ok (), r) ∧
      pulledWithTerminators Expr_pull src r es last

/-- The types an import resolves in the target's exported-type table (AST.cpp
94-110): every exported type for an empty import list, else the types found
for the listed identifier paths, in order. -/
def ImportExpr.resolved (parsed : ParsedSrc) (self : ImportExpr) : List Ty :=
  if self.imports.isEmpty then parsed.getExportedTypes
  else self.imports.filterMap fun i => parsed.getExportedType i.path

/-! ## The expression tree and the whole typecheck pass -/

/-- Modelled from the spec: the expression node, a tagged union over the
variants `Attr`, `Export`, `Import`, `List`, `Return`, `Block` and `TopLevel`;
a node owns its sub-expressions. -/
inductive Expr
  | Attr (node : AttrExpr Expr)
  | Export (node : ExportExpr Expr)
  | Import (node : ImportExpr)
  | List (node : ListExpr Expr)
  | Return (node : ReturnExpr Expr)
  | Block (node : BlockExpr Expr)
  | TopLevel (node : AST Expr)

/-- Modelled from the spec: a loaded source file, with the directory its own
imports are resolved from and the tree `AST::pull` yields for its text. -/
structure SrcFile where
  searchDir : String
  ast : AST Expr

/-- Modelled from the spec: the source files of a compilation: `resolve` is
the path a `from` string names relative to a search directory and `srcFrom` is
`SrcFile::from`, the file at a path or a load error. -/
structure Files where
  resolve : String → String → String
  srcFrom : String → Except String SrcFile

/-- Modelled from the spec: `UnitParser::parse(shared, src)` runs the pipeline
on a file as an independent unit: a new unit parser with its own, empty
exported-type table and a root scope frame typechecks the file's tree,
reporting into the shared sink; the result is the file's parsed unit and the
sink.  `Expr_typecheck` is the virtual `Expr::typecheck`. -/
def UnitParser.parse (Expr_typecheck : Typecheck Expr) (log : List Diagnostic)
    (src : SrcFile) : Option (ParsedSrc × List Diagnostic) :=
  match AST.typecheck Expr_typecheck src.ast
      ⟨src.searchDir, ⟨[]⟩, [⟨none, true, []⟩], log⟩ with
  | none => none
  | some (_, state) => some (state.parsed, state.errors)

/-- The virtual `Expr::typecheck`: the dispatch to the node's `typecheck`.
The first `Nat` bounds the depth of nested calls (through sub-expressions and
through imported files); `none` at depth 0 stands for a call that has not
returned within the bound. -/
def Expr.typecheck (files : Files) : Nat → Expr → UnitParser → Option (Ty × UnitParser)
  | 0, _, _ => none
  | depth + 1, expr, state =>
    match expr with
    | Expr.Attr node =>
      AttrExpr.typecheck (fun e s => Expr.typecheck files depth e s) node state
    | Expr.Export node =>
      ExportExpr.typecheck (fun e s => Expr.typecheck files depth e s) node state
    | Expr.Import node =>
      ImportExpr.typecheck
        ⟨files.resolve, files.srcFrom,
          fun log src => UnitParser.parse (fun e s => Expr.typecheck files depth e s) log src⟩
        node state
    | Expr.List node =>
      ListExpr.typecheck (fun e s => Expr.typecheck files depth e s) node state
    | Expr.Return node =>
      ReturnExpr.typecheck (fun e s => Expr.typecheck files depth e s) node state
    | Expr.Block node =>
      BlockExpr.typecheck (fun e s => Expr.typecheck files depth e s) node state
    | Expr.TopLevel node =>
      AST.typecheck (fun e s => Expr.typecheck files depth e s) node state

/-- Example files: every path names the same file, whose text is
`import * from "a";`, so the file imports itself. -/
def Files.selfImport : Files :=
  ⟨fun dir file => dir ++ "/" ++ file,
   fun _ => .ok ⟨"lib", ⟨[Expr.Import ⟨"a", [], (0, 4)⟩], (0, 5)⟩⟩⟩

/-- Example files: no path names a file that can be loaded. -/
def Files.missing : Files :=
  ⟨fun dir file => dir ++ "/" ++ file, fun path => .error ("cannot open " ++ path)⟩

/-- The scope stack of `s2` is the one of `s1` up to the contents of the
innermost frame: same depth, same enclosing frames.  It is what a node that
pops every frame it pushed leaves behind; an import may have inserted types
into the innermost frame. -/
def UnitParser.sameOuterFrames (s1 s2 : UnitParser) : Prop :=
  s2.scopes.length = s1.scopes.length ∧ s2.scopes.tail = s1.scopes.tail

/-- The import nodes of a tree: `Expr.HasImport e n` when `n` is the node `e`
itself or an import node below `e`, at one of the places where a node's
`typecheck` makes the virtual call: the value of an attribute, the exported
expression, the returned expression, the elements of a list, of a block and
of a unit. -/
inductive Expr.HasImport : Expr → ImportExpr → Prop
  | here (n : ImportExpr) : Expr.HasImport (Expr.Import n) n
  | attr (node : AttrExpr Expr) (v : Expr) (n : ImportExpr) :
      node.value = some v → Expr.HasImport v n → Expr.HasImport (Expr.Attr node) n
  | exported (node : ExportExpr Expr) (n : ImportExpr) :
      Expr.HasImport node.expr n → Expr.HasImport (Expr.Export node) n
  | list (node : ListExpr Expr) (e : Expr) (n : ImportExpr) :
      e ∈ node.exprs → Expr.HasImport e n → Expr.HasImport (Expr.List node) n
  | returned (node : ReturnExpr Expr) (v : Expr) (n : ImportExpr) :
      node.expr = some v → Expr.HasImport v n → Expr.HasImport (Expr.Return node) n
  | block (node : BlockExpr Expr) (e : Expr) (n : ImportExpr) :
      e ∈ node.expr.exprs → Expr.HasImport e n → Expr.HasImport (Expr.Block node) n
  | topLevel (node : AST Expr) (e : Expr) (n : ImportExpr) :
      e ∈ node.exprs → Expr.HasImport e n → Expr.HasImport (Expr.TopLevel node) n

/-- The import relation between source files: `files.importedBy G F` when the
tree of `F` holds an import node whose `from`, resolved against the search
directory of `F`, names a path at which the file `G` loads. -/
def Files.importedBy (files : Files) (G F : SrcFile) : Prop :=
  ∃ e ∈ F.ast.exprs, ∃ n, Expr.HasImport e n ∧
    files.srcFrom (files.resolve F.searchDir n.from_) = .ok G

/-- Example file: the text `import * from "b";`. -/
def SrcFile.importsB : SrcFile := ⟨"lib", ⟨[Expr.Import ⟨"b", [], (0, 4)⟩], (0, 5)⟩⟩

/-- Example file: the text `return;`. -/
def SrcFile.returns : SrcFile := ⟨"lib", ⟨[Expr.Return ⟨none, none, (0, 1)⟩], (0, 2)⟩⟩

/-- Example files: a chain of two.  The path `lib/a` names a file that reads
`import * from "b";`, the path `lib/b` one that reads `return;`, and no
other path names a file that can be loaded. -/
def Files.chain : Files :=
  ⟨fun dir file => dir ++ "/" ++ file,
   fun path =>
     if path = "lib/a" then .ok SrcFile.importsB
     else if path = "lib/b" then .ok SrcFile.returns
     else .error ("cannot open " ++ path)⟩

/-! ## Parsing: lemmas -/

theorem Rollback.frame_error_pos {α : Type} (pos : Nat) (body : Nat → Outcome α)
    (e : ParseError) (p : Nat) (h : Rollback.frame pos body = some (.error e, p)) : p = pos := by
  unfold Rollback.frame at h
  split at h
  · simp at h; exact h.2.symm
  · rename_i hne
    exact absurd h (hne e p)

theorem Token.spaces_drop_eq_zero (src : List Token) (pos : Nat)
    (h : src[pos]? ≠ some Token.Space) : Token.spaces (src.drop pos) = 0 := by
  rcases hd : src.drop pos with _ | ⟨t, ts⟩
  · rfl
  · have ht : src[pos]? = some t := by
      have := congrArg List.head? hd
      simpa [List.head?_drop] using this
    cases t <;> first | rfl | exact absurd ht h

theorem Token.skipToNext_eq_self (src : List Token) (pos : Nat)
    (h : src[pos]? ≠ some Token.Space) : Token.skipToNext src pos = pos := by
  simp [Token.skipToNext, Token.spaces_drop_eq_zero src pos h]

theorem Token.peek_eq_getElem (src : List Token) (pos : Nat)
    (h : src[pos]? ≠ some Token.Space) : Token.peek src pos = src[pos]? := by
  simp [Token.peek, Token.skipToNext_eq_self src pos h]

theorem Token.peekIs_eq (tk : Token) (src : List Token) (pos : Nat)
    (h : src[pos]? ≠ some Token.Space) :
    Token.peekIs tk src pos = decide (src[pos]? = some tk) := by
  simp [Token.peekIs, Token.peek_eq_getElem src pos h]

theorem Token.pull_hit (tk : Token) (src : List Token) (pos : Nat)
    (htk : tk ≠ Token.Space) (h : src[pos]? = some tk) :
    Token.pull tk src pos = (.ok (), pos + 1) := by
  have hs : src[pos]? ≠ some Token.Space := by
    rw [h]; intro hc; exact htk (Option.some.inj hc)
  simp [Token.pull, Token.peekIs_eq tk src pos hs, h, Token.skipToNext_eq_self src pos hs]

theorem Token.pull_miss (tk : Token) (src : List Token) (pos : Nat)
    (hs : src[pos]? ≠ some Token.Space) (h : src[pos]? ≠ some tk) :
    Token.pull tk src pos = (.error .tokenMismatch, pos) := by
  simp [Token.pull, Token.peekIs_eq tk src pos hs, h]

theorem Token.drawSemicolons_stop (src : List Token) (n pos : Nat)
    (hs : src[pos]? ≠ some Token.Space) (h : src[pos]? ≠ some (Token.Punct ';')) :
    Token.drawSemicolons src n pos = pos := by
  cases n with
  | zero => rfl
  | succ n => simp [Token.drawSemicolons, Token.draw, Token.peekIs_eq _ src pos hs, h]

theorem Token.pullSemicolons_one (src : List Token) (pos : Nat)
    (h : src[pos]? = some (Token.Punct ';'))
    (hs : src[pos + 1]? ≠ some Token.Space) (hn : src[pos + 1]? ≠ some (Token.Punct ';')) :
    Token.pullSemicolons src pos = (.ok (), pos + 1) := by
  simp [Token.pullSemicolons, Token.pull_hit _ src pos (by decide) h,
    Token.drawSemicolons_stop src _ (pos + 1) hs hn]

theorem Token.pullSemicolons_miss (src : List Token) (pos : Nat)
    (hs : src[pos]? ≠ some Token.Space) (h : src[pos]? ≠ some (Token.Punct ';')) :
    Token.pullSemicolons src pos = (.error .tokenMismatch, pos) := by
  simp [Token.pullSemicolons, Token.pull_miss _ src pos hs h]

theorem parsesSeq_startsExpr {E : Type} (Expr_pull : Rule E) (src : List Token)
    (pos : Nat) (segs : List (E × Nat)) (last : Nat)
    (h : parsesSeq Expr_pull src pos segs last) : startsExpr src pos := by
  match segs, h with
  | [(_, _)], h => exact h.1
  | (_, _) :: _ :: _, h => exact h.1

theorem ListExpr.pullLoop_seq {E : Type} (Expr_pull : Rule E) (src : List Token)
    (start last : Nat) (R : List E → Outcome (List E))
    (hR : ∀ fuel posn acc e, Expr_pull src posn = some (.ok e, last) →
      ListExpr.pullLoop Expr_pull src start (fuel + 1) posn acc = R (acc ++ [e]))
    (segs : List (E × Nat)) :
    ∀ fuel pos acc, parsesSeq Expr_pull src pos segs last → segs.length ≤ fuel →
      ListExpr.pullLoop Expr_pull src start fuel pos acc = R (acc ++ segs.map Prod.fst) := by
  induction segs with
  | nil => intro fuel pos acc h; exact absurd h (by simp [parsesSeq])
  | cons s rest ih =>
    intro fuel pos acc h hfuel
    obtain ⟨e, q⟩ := s
    cases fuel with
    | zero => simp at hfuel
    | succ fuel =>
      cases rest with
      | nil =>
        obtain ⟨_, hp, hq⟩ := h
        subst hq
        simpa using hR fuel pos acc e hp
      | cons s' rest' =>
        obtain ⟨_, hp, hsemi, htail⟩ := h
        obtain ⟨t, ht, hts, htsemi, htbrace⟩ := parsesSeq_startsExpr _ _ _ _ _ htail
        have hns : src[q + 1]? ≠ some Token.Space := by
          rw [ht]; intro hc; exact hts (Option.some.inj hc)
        have hnsemi : src[q + 1]? ≠ some (Token.Punct ';') := by
          rw [ht]; intro hc; exact htsemi (Option.some.inj hc)
        have hnbrace : src[q + 1]? ≠ some (Token.Punct '}') := by
          rw [ht]; intro hc; exact htbrace (Option.some.inj hc)
        have hrec := ih fuel (q + 1) (acc ++ [e]) htail (by simpa using hfuel)
        rw [ListExpr.pullLoop, hp]
        simp only [unwrapInto, Token.pullSemicolons_one src q hsemi hns hnsemi]
        simp [ParseResult.isOk, Token.peekIs_eq _ src (q + 1) hns, htbrace,
          Token.peek_eq_getElem src (q + 1) hns, ht, hrec]

theorem ListExpr.pull_of_loop {E : Type} (Expr_pull : Rule E) (fuel : Nat)
    (src : List Token) (pos : Nat) (hstart : startsExpr src pos) :
    ListExpr.pull Expr_pull fuel src pos =
      Rollback.frame pos fun start =>
        unwrapInto (ListExpr.pullLoop Expr_pull src start fuel start []) fun list p =>
        some (.ok ⟨list, (start, p)⟩, p) := by
  obtain ⟨t, ht, hts, _, htbrace⟩ := hstart
  have hns : src[pos]? ≠ some Token.Space := by
    rw [ht]; intro hc; exact hts (Option.some.inj hc)
  simp [ListExpr.pull, Rollback.frame, Token.peekIs_eq _ src pos hns, ht, htbrace]

/-- After the last expression: `}` is next. -/
theorem ListExpr.pullLoop_last_brace {E : Type} (Expr_pull : Rule E) (src : List Token)
    (start last : Nat) (hb : src[last]? = some (Token.Punct '}'))
    (fuel posn : Nat) (acc : List E) (e : E)
    (hp : Expr_pull src posn = some (.ok e, last)) :
    ListExpr.pullLoop Expr_pull src start (fuel + 1) posn acc = some (.ok (acc ++ [e]), last) := by
  have hns : src[last]? ≠ some Token.Space := by rw [hb]; decide
  have hnsemi : src[last]? ≠ some (Token.Punct ';') := by rw [hb]; decide
  rw [ListExpr.pullLoop, hp]
  simp only [unwrapInto, Token.pullSemicolons_miss src last hns hnsemi]
  simp [ParseResult.isOk, Token.peekIs_eq _ src last hns, hb]

/-- After the last expression: one `;`, then the token `nxt` that is `}` or
the end of input. -/
theorem ListExpr.pullLoop_last_semi {E : Type} (Expr_pull : Rule E) (src : List Token)
    (start last : Nat) (hsemi : src[last]? = some (Token.Punct ';'))
    (hb : src[last + 1]? = some (Token.Punct '}') ∨ src[last + 1]? = none)
    (fuel posn : Nat) (acc : List E) (e : E)
    (hp : Expr_pull src posn = some (.ok e, last)) :
    ListExpr.pullLoop Expr_pull src start (fuel + 1) posn acc =
      some (.ok (acc ++ [e]), last + 1) := by
  have hns : src[last + 1]? ≠ some Token.Space := by rcases hb with hb | hb <;> rw [hb] <;> decide
  have hnsemi : src[last + 1]? ≠ some (Token.Punct ';') := by
    rcases hb with hb | hb <;> rw [hb] <;> decide
  rw [ListExpr.pullLoop, hp]
  simp only [unwrapInto, Token.pullSemicolons_one src last hsemi hns hnsemi]
  rcases hb with hb | hb <;>
    simp [ParseResult.isOk, Token.peekIs_eq _ src (last + 1) hns,
      Token.peek_eq_getElem src (last + 1) hns, hb]

/-- After the last expression: the end of input. -/
theorem ListExpr.pullLoop_last_eof {E : Type} (Expr_pull : Rule E) (src : List Token)
    (start last : Nat) (hb : src[last]? = none)
    (fuel posn : Nat) (acc : List E) (e : E)
    (hp : Expr_pull src posn = some (.ok e, last)) :
    ListExpr.pullLoop Expr_pull src start (fuel + 1) posn acc =
      some (.error (.message "Expected semicolon"), start) := by
  have hns : src[last]? ≠ some Token.Space := by rw [hb]; decide
  have hnsemi : src[last]? ≠ some (Token.Punct ';') := by rw [hb]; decide
  rw [ListExpr.pullLoop, hp]
  simp only [unwrapInto, Token.pullSemicolons_miss src last hns hnsemi]
  simp [ParseResult.isOk, Token.peekIs_eq _ src last hns, hb]

/-! ## Parsing: theorems -/

/-- C1 — backtracking purity of the node rules: whatever `Expr::pull` and
`IdentExpr::pull` do to the cursor, when `AttrExpr::pull`, `ExportExpr::pull`,
`ImportExpr::pull`, `ListExpr::pull`, `ReturnExpr::pull` or `BlockExpr::pull`
returns a parse error the cursor position after the call is the position
before the call. -/
theorem pull_backtracking_purity {E : Type} (Expr_pull : Rule E)
    (IdentExpr_pull : Rule IdentExpr) (fuel : Nat) (src : List Token) (pos : Nat) :
    (∀ e p, AttrExpr.pull Expr_pull IdentExpr_pull src pos = some (.error e, p) → p = pos) ∧
    (∀ e p, ExportExpr.pull Expr_pull src pos = some (.error e, p) → p = pos) ∧
    (∀ e p, ImportExpr.pull IdentExpr_pull fuel src pos = some (.error e, p) → p = pos) ∧
    (∀ e p, ListExpr.pull Expr_pull fuel src pos = some (.error e, p) → p = pos) ∧
    (∀ e p, ReturnExpr.pull Expr_pull IdentExpr_pull src pos = some (.error e, p) → p = pos) ∧
    (∀ e p, BlockExpr.pull Expr_pull fuel src pos = some (.error e, p) → p = pos) :=
  ⟨fun e p h => Rollback.frame_error_pos pos _ e p h,
   fun e p h => Rollback.frame_error_pos pos _ e p h,
   fun e p h => Rollback.frame_error_pos pos _ e p h,
   fun e p h => Rollback.frame_error_pos pos _ e p h,
   fun e p h => Rollback.frame_error_pos pos _ e p h,
   fun e p h => Rollback.frame_error_pos pos _ e p h⟩

/-- On `import * from 1` the rule `ImportExpr::pull` consumes four tokens,
fails on the literal and leaves the cursor where it started (C1 at a concrete
stream). -/
theorem pull_backtracking_purity_witness :
    ImportExpr.pull IdentExpr.pull 1
        [Token.Kw Keyword.Import, Token.Punct '*', Token.Kw Keyword.From,
          Token.Literal (Lit.Other "1")] 0
      = some (.error (.message "Expected string literal"), 0) ∧
    Token.pull (Token.Kw Keyword.From)
        [Token.Kw Keyword.Import, Token.Punct '*', Token.Kw Keyword.From,
          Token.Literal (Lit.Other "1")] 2 = (.ok (), 3) ∧
    (0 : Nat) = 0 :=
  ⟨by decide, by decide,
   (pull_backtracking_purity IdentExpr.pull IdentExpr.pull 1
      [Token.Kw Keyword.Import, Token.Punct '*', Token.Kw Keyword.From,
        Token.Literal (Lit.Other "1")] 0).2.2.1 (.message "Expected string literal") 0
     (by decide)⟩

/-- C2 fails as stated: on a stream that starts with white space `AST::pull`
fails and leaves the cursor behind the white space (position 1), not at the
position before the call (position 0). -/
theorem AST_pull_error_moves_cursor :
    AST.pull IdentExpr.pull 1 [Token.Space, Token.Punct ')'] 0
      = some (.error .tokenMismatch, 1) := by decide

/-- C2 as amended: when `AST::pull` returns a parse error the cursor is at the
position `Token::skipToNext` reached from the position before the call, which
is where the rule's frame was opened. -/
theorem AST_pull_error_pos {E : Type} (Expr_pull : Rule E) (fuel : Nat)
    (src : List Token) (pos : Nat) (e : ParseError) (p : Nat)
    (h : AST.pull Expr_pull fuel src pos = some (.error e, p)) :
    p = Token.skipToNext src pos :=
  Rollback.frame_error_pos _ _ e p h

/-- C2 as amended, at the stream `␣ )`: the failed `AST::pull` leaves the
cursor at 1, the position after the skipped white space. -/
theorem AST_pull_error_pos_witness :
    AST.pull IdentExpr.pull 1 [Token.Space, Token.Punct ')'] 0
      = some (.error .tokenMismatch, 1) ∧
    1 = Token.skipToNext [Token.Space, Token.Punct ')'] 0 :=
  ⟨by decide,
   AST_pull_error_pos IdentExpr.pull 1 [Token.Space, Token.Punct ')'] 0 .tokenMismatch 1
     (by decide)⟩

/-- C3 — list terminator tolerance: on the tokens `e1; ...; en }` (stream 1)
and on the tokens `e1; ...; en; }` (stream 2) `ListExpr::pull` succeeds with
the same expression list `[e1, ..., en]`, the cursor left at the `}`; and on a
stream whose next token is `}` (stream 3) it succeeds with the empty list and
consumes nothing. -/
theorem ListExpr_pull_terminator_tolerance {E : Type} (Expr_pull : Rule E)
    (src1 src2 src3 : List Token) (pos1 pos2 pos3 last1 last2 : Nat)
    (segs1 segs2 : List (E × Nat)) (fuel : Nat)
    (h1 : parsesSeq Expr_pull src1 pos1 segs1 last1)
    (hb1 : src1[last1]? = some (Token.Punct '}'))
    (h2 : parsesSeq Expr_pull src2 pos2 segs2 last2)
    (hs2 : src2[last2]? = some (Token.Punct ';'))
    (hb2 : src2[last2 + 1]? = some (Token.Punct '}'))
    (hsame : segs1.map Prod.fst = segs2.map Prod.fst)
    (hfuel : segs1.length ≤ fuel)
    (h3 : Token.peek src3 pos3 = some (Token.Punct '}')) :
    ListExpr.pull Expr_pull fuel src1 pos1
      = some (.ok ⟨segs1.map Prod.fst, (pos1, last1)⟩, last1) ∧
    ListExpr.pull Expr_pull fuel src2 pos2
      = some (.ok ⟨segs1.map Prod.fst, (pos2, last2 + 1)⟩, last2 + 1) ∧
    ∀ fuel3, ListExpr.pull Expr_pull fuel3 src3 pos3 = some (.ok ⟨[], (pos3, pos3)⟩, pos3) := by
  refine ⟨?_, ?_, ?_⟩
  · rw [ListExpr.pull_of_loop _ _ _ _ (parsesSeq_startsExpr _ _ _ _ _ h1),
      Rollback.frame,
      ListExpr.pullLoop_seq Expr_pull src1 pos1 last1 (fun l => some (.ok l, last1))
        (ListExpr.pullLoop_last_brace Expr_pull src1 pos1 last1 hb1) segs1 fuel pos1 [] h1 hfuel]
    simp [unwrapInto]
  · have hlen : segs2.length ≤ fuel := by
      have := congrArg List.length hsame
      simp only [List.length_map] at this
      omega
    rw [ListExpr.pull_of_loop _ _ _ _ (parsesSeq_startsExpr _ _ _ _ _ h2),
      Rollback.frame,
      ListExpr.pullLoop_seq Expr_pull src2 pos2 last2 (fun l => some (.ok l, last2 + 1))
        (ListExpr.pullLoop_last_semi Expr_pull src2 pos2 last2 hs2 (Or.inl hb2))
        segs2 fuel pos2 [] h2 hlen]
    simp [unwrapInto, hsame]
  · intro fuel3
    simp [ListExpr.pull, Rollback.frame, Token.peekIs, h3]

/-- C3 at `a; b }`, `a; b; }` and `}`, with identifiers for expressions. -/
theorem ListExpr_pull_terminator_tolerance_witness :
    ListExpr.pull IdentExpr.pull 2
        [Token.Ident "a", Token.Punct ';', Token.Ident "b", Token.Punct '}'] 0
      = some (.ok ⟨[⟨"a", (0, 1)⟩, ⟨"b", (2, 3)⟩], (0, 3)⟩, 3) ∧
    ListExpr.pull IdentExpr.pull 2
        [Token.Ident "a", Token.Punct ';', Token.Ident "b", Token.Punct ';', Token.Punct '}'] 0
      = some (.ok ⟨[⟨"a", (0, 1)⟩, ⟨"b", (2, 3)⟩], (0, 4)⟩, 4) ∧
    ∀ fuel3, ListExpr.pull IdentExpr.pull fuel3 [Token.Punct '}'] 0
      = some (.ok ⟨[], (0, 0)⟩, 0) :=
  ListExpr_pull_terminator_tolerance IdentExpr.pull
    [Token.Ident "a", Token.Punct ';', Token.Ident "b", Token.Punct '}']
    [Token.Ident "a", Token.Punct ';', Token.Ident "b", Token.Punct ';', Token.Punct '}']
    [Token.Punct '}'] 0 0 0 3 3
    [(⟨"a", (0, 1)⟩, 1), (⟨"b", (2, 3)⟩, 3)] [(⟨"a", (0, 1)⟩, 1), (⟨"b", (2, 3)⟩, 3)] 2
    ⟨⟨_, rfl, by decide, by decide, by decide⟩, by decide, by decide,
      ⟨_, rfl, by decide, by decide, by decide⟩, by decide, rfl⟩
    (by decide)
    ⟨⟨_, rfl, by decide, by decide, by decide⟩, by decide, by decide,
      ⟨_, rfl, by decide, by decide, by decide⟩, by decide, rfl⟩
    (by decide) (by decide) rfl (by decide) (by decide)

/-- C4 fails as stated: the tokens are `a; b` followed directly by the end
of input, `Expr::pull` (here the identifier rule) parses `a` and `b`, and yet
`ListExpr::pull` succeeds for no fuel: it returns "Expected semicolon". -/
theorem ListExpr_pull_eof_without_semicolon :
    parsesSeq IdentExpr.pull [Token.Ident "a", Token.Punct ';', Token.Ident "b"] 0
      [(⟨"a", (0, 1)⟩, 1), (⟨"b", (2, 3)⟩, 3)] 3 ∧
    [Token.Ident "a", Token.Punct ';', Token.Ident "b"][3]? = none ∧
    ListExpr.pull IdentExpr.pull 2 [Token.Ident "a", Token.Punct ';', Token.Ident "b"] 0
      = some (.error (.message "Expected semicolon"), 0) ∧
    ¬ ∃ fuel r p,
      ListExpr.pull IdentExpr.pull fuel [Token.Ident "a", Token.Punct ';', Token.Ident "b"] 0
        = some (.ok r, p) := by
  refine ⟨⟨⟨_, rfl, by decide, by decide, by decide⟩, by decide, by decide,
      ⟨_, rfl, by decide, by decide, by decide⟩, by decide, rfl⟩, by decide, by decide, ?_⟩
  rintro ⟨fuel, r, p, h⟩
  match fuel, h with
  | 0, h =>
    have hn : ListExpr.pull IdentExpr.pull 0
        [Token.Ident "a", Token.Punct ';', Token.Ident "b"] 0 = none := rfl
    rw [hn] at h
    cases h
  | 1, h =>
    have hn : ListExpr.pull IdentExpr.pull 1
        [Token.Ident "a", Token.Punct ';', Token.Ident "b"] 0 = none := rfl
    rw [hn] at h
    cases h
  | n + 2, h =>
    have hn : ListExpr.pull IdentExpr.pull (n + 2)
        [Token.Ident "a", Token.Punct ';', Token.Ident "b"] 0
        = some (.error (.message "Expected semicolon"), 0) := rfl
    rw [hn] at h
    cases h

/-- C4 as amended: the last semicolon may be left out before `}` only.  On
the tokens `e1; ...; en` followed directly by the end of input (stream 1)
`ListExpr::pull` returns the parse error "Expected semicolon" with the cursor
back at the start; on `e1; ...; en;` followed by the end of input (stream 2)
it succeeds and returns `[e1, ..., en]`. -/
theorem ListExpr_pull_end_of_input {E : Type} (Expr_pull : Rule E)
    (src1 src2 : List Token) (pos1 pos2 last1 last2 : Nat)
    (segs1 segs2 : List (E × Nat)) (fuel : Nat)
    (h1 : parsesSeq Expr_pull src1 pos1 segs1 last1)
    (he1 : src1[last1]? = none)
    (h2 : parsesSeq Expr_pull src2 pos2 segs2 last2)
    (hs2 : src2[last2]? = some (Token.Punct ';'))
    (he2 : src2[last2 + 1]? = none)
    (hfuel1 : segs1.length ≤ fuel) (hfuel2 : segs2.length ≤ fuel) :
    ListExpr.pull Expr_pull fuel src1 pos1
      = some (.error (.message "Expected semicolon"), pos1) ∧
    ListExpr.pull Expr_pull fuel src2 pos2
      = some (.ok ⟨segs2.map Prod.fst, (pos2, last2 + 1)⟩, last2 + 1) := by
  refine ⟨?_, ?_⟩
  · rw [ListExpr.pull_of_loop _ _ _ _ (parsesSeq_startsExpr _ _ _ _ _ h1),
      Rollback.frame,
      ListExpr.pullLoop_seq Expr_pull src1 pos1 last1
        (fun _ => some (.error (.message "Expected semicolon"), pos1))
        (ListExpr.pullLoop_last_eof Expr_pull src1 pos1 last1 he1) segs1 fuel pos1 [] h1 hfuel1]
    simp [unwrapInto]
  · rw [ListExpr.pull_of_loop _ _ _ _ (parsesSeq_startsExpr _ _ _ _ _ h2),
      Rollback.frame,
      ListExpr.pullLoop_seq Expr_pull src2 pos2 last2 (fun l => some (.ok l, last2 + 1))
        (ListExpr.pullLoop_last_semi Expr_pull src2 pos2 last2 hs2 (Or.inr he2))
        segs2 fuel pos2 [] h2 hfuel2]
    simp [unwrapInto]

/-- C4 as amended, at `a; b` and `a; b;`, each followed by the end of input. -/
theorem ListExpr_pull_end_of_input_witness :
    ListExpr.pull IdentExpr.pull 2 [Token.Ident "a", Token.Punct ';', Token.Ident "b"] 0
      = some (.error (.message "Expected semicolon"), 0) ∧
    ListExpr.pull IdentExpr.pull 2
        [Token.Ident "a", Token.Punct ';', Token.Ident "b", Token.Punct ';'] 0
      = some (.ok ⟨[⟨"a", (0, 1)⟩, ⟨"b", (2, 3)⟩], (0, 4)⟩, 4) :=
  ListExpr_pull_end_of_input IdentExpr.pull
    [Token.Ident "a", Token.Punct ';', Token.Ident "b"]
    [Token.Ident "a", Token.Punct ';', Token.Ident "b", Token.Punct ';'] 0 0 3 3
    [(⟨"a", (0, 1)⟩, 1), (⟨"b", (2, 3)⟩, 3)] [(⟨"a", (0, 1)⟩, 1), (⟨"b", (2, 3)⟩, 3)] 2
    ⟨⟨_, rfl, by decide, by decide, by decide⟩, by decide, by decide,
      ⟨_, rfl, by decide, by decide, by decide⟩, by decide, rfl⟩
    (by decide)
    ⟨⟨_, rfl, by decide, by decide, by decide⟩, by decide, by decide,
      ⟨_, rfl, by decide, by decide, by decide⟩, by decide, rfl⟩
    (by decide) (by decide) (by decide) (by decide)

/-- C6 — the literal after `from`: when `import`, the import set and `from`
parse (ending at `p3`) and the next token is a literal, `ImportExpr::pull`
returns the parse error "Expected string literal" (and so no node) if the
literal is not a string literal, and succeeds with that string as `from` and
the parsed import list if it is one. -/
theorem ImportExpr_pull_literal (IdentExpr_pull : Rule IdentExpr) (fuel : Nat)
    (src : List Token) (pos p1 p2 p3 : Nat) (imports : List IdentExpr) (lit : Lit)
    (h1 : Token.pull (Token.Kw Keyword.Import) src pos = (.ok (), p1))
    (h2 : ImportExpr.pullImports IdentExpr_pull fuel src p1 = some (.ok imports, p2))
    (h3 : Token.pull (Token.Kw Keyword.From) src p2 = (.ok (), p3))
    (h4 : Token.peek src p3 = some (Token.Literal lit)) :
    ((∀ s, lit ≠ Lit.StrLit s) →
      ImportExpr.pull IdentExpr_pull fuel src pos
        = some (.error (.message "Expected string literal"), pos)) ∧
    (∀ s, lit = Lit.StrLit s →
      ImportExpr.pull IdentExpr_pull fuel src pos
        = some (.ok ⟨s, imports, (pos, Token.skipToNext src p3 + 1)⟩,
            Token.skipToNext src p3 + 1)) := by
  have hlit : Token.pullLit src p3 = (.ok lit, Token.skipToNext src p3 + 1) := by
    simp [Token.pullLit, h4]
  refine ⟨fun hne => ?_, fun s hs => ?_⟩
  · cases lit with
    | StrLit s => exact absurd rfl (hne s)
    | Other sp => simp [ImportExpr.pull, Rollback.frame, unwrapInto, h1, h2, h3, hlit]
  · subst hs
    simp [ImportExpr.pull, Rollback.frame, unwrapInto, h1, h2, h3, hlit]

/-- C6 at `import * from 1` (rejected) and at `import * from "f"`
(accepted). -/
theorem ImportExpr_pull_literal_witness :
    ImportExpr.pull IdentExpr.pull 1
        [Token.Kw Keyword.Import, Token.Punct '*', Token.Kw Keyword.From,
          Token.Literal (Lit.Other "1")] 0
      = some (.error (.message "Expected string literal"), 0) ∧
    ImportExpr.pull IdentExpr.pull 1
        [Token.Kw Keyword.Import, Token.Punct '*', Token.Kw Keyword.From,
          Token.Literal (Lit.StrLit "f")] 0
      = some (.ok ⟨"f", [], (0, 4)⟩, 4) :=
  ⟨(ImportExpr_pull_literal IdentExpr.pull 1
      [Token.Kw Keyword.Import, Token.Punct '*', Token.Kw Keyword.From,
        Token.Literal (Lit.Other "1")] 0 1 2 3 [] (Lit.Other "1")
      (by decide) (by decide) (by decide) (by decide)).1 (fun _ h => Lit.noConfusion h),
   (ImportExpr_pull_literal IdentExpr.pull 1
      [Token.Kw Keyword.Import, Token.Punct '*', Token.Kw Keyword.From,
        Token.Literal (Lit.StrLit "f")] 0 1 2 3 [] (Lit.StrLit "f")
      (by decide) (by decide) (by decide) (by decide)).2 "f" rfl⟩

/-! ## Typecheck: lemmas -/

theorem TypeTable.get_name (tbl : TypeTable) (n : String) (ty : Ty)
    (h : tbl.get n = some ty) : ty.name = some n := by
  have := List.find?_some h
  simpa using this

theorem TypeTable.get_mem (tbl : TypeTable) (n : String) (ty : Ty)
    (h : tbl.get n = some ty) : ty ∈ tbl :=
  List.mem_of_find?_eq_some h

theorem TypeTable.get_filter_ne (tbl : TypeTable) (m n : String) (hmn : m ≠ n) :
    TypeTable.get (tbl.filter fun t => decide (t.name ≠ some m)) n = tbl.get n := by
  unfold TypeTable.get
  rw [List.find?_filter]
  congr 1
  funext a
  by_cases h : a.name = some n
  · have hm : a.name ≠ some m := by
      rw [h]; intro hc; exact hmn (Option.some.inj hc).symm
    simp [h]
    exact fun hc => hmn hc.symm
  · simp [h]

theorem TypeTable.get_insert (tbl : TypeTable) (ty : Ty) (m n : String)
    (hm : ty.name = some m) :
    (tbl.insert ty).get n = if m = n then some ty else tbl.get n := by
  by_cases hmn : m = n
  · subst hmn
    simp [TypeTable.insert, hm, TypeTable.get]
  · have hne : ty.name ≠ some n := by
      rw [hm]; intro hc; exact hmn (Option.some.inj hc)
    have hf := TypeTable.get_filter_ne tbl m n hmn
    have hins : tbl.insert ty = ty :: tbl.filter fun t => decide (t.name ≠ some m) := by
      simp [TypeTable.insert, hm]
    rw [hins, if_neg hmn, ← hf]
    simp only [TypeTable.get]
    rw [List.find?_cons_of_neg]
    simpa using hne

theorem UnitParser.getType_error (state : UnitParser) (range : Range) (msg : String)
    (n : String) (b : Bool) : (state.error range msg).getType n b = state.getType n b := rfl

theorem UnitParser.isRootScope_error (state : UnitParser) (range : Range) (msg : String) :
    (state.error range msg).isRootScope = state.isRootScope := rfl

theorem UnitParser.getType_pushType (state : UnitParser) (ty : Ty) (m n : String)
    (hm : ty.name = some m) (hs : state.scopes ≠ []) :
    (state.pushType ty).getType n true = if m = n then some ty else state.getType n true := by
  rcases hsc : state.scopes with _ | ⟨s, outer⟩
  · exact absurd hsc hs
  · simp [UnitParser.pushType, UnitParser.getType, hsc, TypeTable.get_insert _ ty m n hm]

theorem UnitParser.getType_pushType_ne (state : UnitParser) (ty : Ty) (m n : String)
    (hm : ty.name = some m) (hmn : m ≠ n) :
    (state.pushType ty).getType n true = state.getType n true := by
  rcases hsc : state.scopes with _ | ⟨s, outer⟩
  · simp [UnitParser.pushType, UnitParser.getType, hsc]
  · simp [UnitParser.pushType, UnitParser.getType, hsc, TypeTable.get_insert _ ty m n hm, hmn]

theorem UnitParser.getType_outward (state : UnitParser) (n : String) (ty : Ty)
    (h : state.getType n true = some ty) : state.getType n false = some ty := by
  rcases hsc : state.scopes with _ | ⟨s, outer⟩
  · simp [UnitParser.getType, hsc] at h
  · simp only [UnitParser.getType, hsc, if_true] at h
    simp [UnitParser.getType, hsc, List.findSome?, h]

theorem ImportExpr.pushImported_scopes_ne (range : Range) (state : UnitParser) (ty : Ty)
    (hs : state.scopes ≠ []) : (ImportExpr.pushImported range state ty).scopes ≠ [] := by
  unfold ImportExpr.pushImported
  split
  · split
    · exact hs
    · rcases hsc : state.scopes with _ | ⟨s, outer⟩
      · exact absurd hsc hs
      · simp [UnitParser.pushType, hsc]
  · exact hs

theorem ImportExpr.resolve_eq (parsed : ParsedSrc) (from_ : String)
    (imports : List IdentExpr) :
    ∀ (acc : List Ty) (state : UnitParser),
      ImportExpr.resolve parsed from_ imports (acc, state) =
        (acc ++ imports.filterMap (fun i => parsed.getExportedType i.path),
         { state with errors := (state.errors ++
            List.map (ImportExpr.notFound from_)
              (imports.filter fun i => (parsed.getExportedType i.path).isNone)) }) := by
  induction imports with
  | nil => intro acc state; simp [ImportExpr.resolve]
  | cons i rest ih =>
    intro acc state
    rcases hi : parsed.getExportedType i.path with _ | ty
    · simp [ImportExpr.resolve, hi, ih, UnitParser.error, ImportExpr.notFound]
    · simp [ImportExpr.resolve, hi, ih]

/-- The innermost frame after the loop of AST.cpp 111-120: a name that stood
there keeps its type, any other name gets the first imported type of that
name. -/
theorem ImportExpr.getType_foldl_pushImported (range : Range) (n : String)
    (imported : List Ty) :
    ∀ state : UnitParser, state.scopes ≠ [] →
      (imported.foldl (ImportExpr.pushImported range) state).getType n true =
        (state.getType n true).orElse fun _ => TypeTable.get imported n := by
  induction imported with
  | nil => intro state _; cases h : state.getType n true <;> simp [TypeTable.get, h]
  | cons t rest ih =>
    intro state hs
    have hs1 := ImportExpr.pushImported_scopes_ne range state t hs
    rw [List.foldl_cons, ih _ hs1]
    unfold ImportExpr.pushImported
    rcases hname : t.getName with _ | m
    · have hn : t.name ≠ some n := by
        intro hc; rw [Ty.getName, hc] at hname; cases hname
      simp [TypeTable.get, hn]
    · have hm : t.name = some m := hname
      by_cases hex : (state.getType m true).isSome = true
      · simp only [hex, if_true, UnitParser.getType_error]
        by_cases hmn : m = n
        · subst hmn
          obtain ⟨t0, ht0⟩ := Option.isSome_iff_exists.mp hex
          simp [ht0]
        · have hn : t.name ≠ some n := by
            rw [hm]; intro hc; exact hmn (Option.some.inj hc)
          simp [TypeTable.get, hn]
      · simp only [hex, Bool.false_eq_true, if_false]
        rw [UnitParser.getType_pushType state t m n hm hs]
        by_cases hmn : m = n
        · subst hmn
          have hnone : state.getType m true = none := by
            cases h : state.getType m true
            · rfl
            · rw [h] at hex; simp at hex
          simp [hnone, TypeTable.get, hm]
        · have hn : t.name ≠ some n := by
            rw [hm]; intro hc; exact hmn (Option.some.inj hc)
          simp [hmn, TypeTable.get, hn]

/-- Registering a type keeps the table a mapping. -/
theorem TypeTable.insert_isMapping (tbl : TypeTable) (ty : Ty) (h : tbl.IsMapping) :
    (tbl.insert ty).IsMapping := by
  unfold TypeTable.IsMapping at h ⊢
  unfold TypeTable.insert
  rcases hn : ty.name with _ | n
  · exact h
  · have hsub : ((tbl.filter fun t => decide (t.name ≠ some n)).filterMap Ty.name).Sublist
        (tbl.filterMap Ty.name) := List.Sublist.filterMap _ (List.filter_sublist _)
    simp only [List.filterMap_cons, hn, List.nodup_cons]
    refine ⟨?_, h.sublist hsub⟩
    intro hmem
    obtain ⟨t, ht, htn⟩ := List.mem_filterMap.mp hmem
    have := (List.mem_filter.mp ht).2
    simp [htn] at this

theorem ImportExpr.clashes_pushImported (range : Range) (state : UnitParser) (t t' : Ty)
    (hne : ∀ m, t.name = some m → t'.name ≠ some m) :
    ImportExpr.clashes (ImportExpr.pushImported range state t) t' =
      ImportExpr.clashes state t' := by
  unfold ImportExpr.clashes
  rcases hn' : t'.getName with _ | n
  · rfl
  · have hname' : t'.name = some n := hn'
    unfold ImportExpr.pushImported
    rcases hname : t.getName with _ | m
    · rfl
    · have hm : t.name = some m := hname
      have hmn : m ≠ n := by
        intro hc; subst hc; exact hne m hm hname'
      by_cases hex : (state.getType m true).isSome = true
      · simp [hex, UnitParser.getType_error]
      · simp [hex, UnitParser.getType_pushType_ne state t m n hm hmn]

theorem ImportExpr.errors_pushImported (range : Range) (state : UnitParser) (t : Ty) :
    (ImportExpr.pushImported range state t).errors =
      state.errors ++
        (if ImportExpr.clashes state t then [ImportExpr.alreadyExists range t] else []) := by
  unfold ImportExpr.pushImported ImportExpr.clashes
  rcases hname : t.getName with _ | m
  · simp
  · by_cases hex : (state.getType m true).isSome = true
    · simp [hex, UnitParser.error, ImportExpr.alreadyExists]
    · rcases hsc : state.scopes with _ | ⟨s, outer⟩ <;> simp [hex, UnitParser.pushType, hsc]

/-- The diagnostics of the loop of AST.cpp 111-120 when no name stands twice
among the imported types: one "already exists" for each imported type whose
name stood in the innermost frame before the loop, in order. -/
theorem ImportExpr.errors_foldl_pushImported (range : Range) (imported : List Ty) :
    ∀ state : UnitParser, TypeTable.IsMapping imported →
      (imported.foldl (ImportExpr.pushImported range) state).errors =
        state.errors ++
          (imported.filter (ImportExpr.clashes state)).map (ImportExpr.alreadyExists range) := by
  induction imported with
  | nil => intro state _; simp
  | cons t rest ih =>
    intro state hmap
    have hrest : TypeTable.IsMapping rest := by
      unfold TypeTable.IsMapping at hmap ⊢
      rcases hn : t.name with _ | m
      · simpa [List.filterMap_cons, hn] using hmap
      · simp only [List.filterMap_cons, hn, List.nodup_cons] at hmap
        exact hmap.2
    have hne : ∀ t' ∈ rest, ∀ m, t.name = some m → t'.name ≠ some m := by
      intro t' ht' m hm hc
      unfold TypeTable.IsMapping at hmap
      simp only [List.filterMap_cons, hm, List.nodup_cons] at hmap
      exact hmap.1 (List.mem_filterMap.mpr ⟨t', ht', hc⟩)
    have hfilter : rest.filter (ImportExpr.clashes (ImportExpr.pushImported range state t)) =
        rest.filter (ImportExpr.clashes state) :=
      List.filter_congr fun t' ht' =>
        ImportExpr.clashes_pushImported range state t t' (hne t' ht')
    rw [List.foldl_cons, ih _ hrest, hfilter, ImportExpr.errors_pushImported]
    by_cases hc : ImportExpr.clashes state t = true
    · simp [List.filter_cons, hc]
    · simp [List.filter_cons, hc]

/-- The diagnostics of the loop of AST.cpp 111-120 in general: the ones there
were, then "already exists" diagnostics only. -/
theorem ImportExpr.errors_foldl_pushImported_shape (range : Range) (imported : List Ty) :
    ∀ state : UnitParser, ∃ dup : List Diagnostic,
      (imported.foldl (ImportExpr.pushImported range) state).errors = state.errors ++ dup ∧
      ∀ d ∈ dup, ∃ ty ∈ imported, d = ImportExpr.alreadyExists range ty := by
  induction imported with
  | nil => intro state; exact ⟨[], by simp, by simp⟩
  | cons t rest ih =>
    intro state
    obtain ⟨dup, hdup, hall⟩ := ih (ImportExpr.pushImported range state t)
    refine ⟨(if ImportExpr.clashes state t then [ImportExpr.alreadyExists range t] else [])
      ++ dup, ?_, ?_⟩
    · rw [List.foldl_cons, hdup, ImportExpr.errors_pushImported, List.append_assoc]
    · intro d hd
      rcases List.mem_append.mp hd with hd | hd
      · by_cases hc : ImportExpr.clashes state t = true
        · simp only [hc, if_true, List.mem_singleton] at hd
          exact ⟨t, List.mem_cons_self _ _, hd⟩
        · simp [hc] at hd
      · obtain ⟨ty, hty, hd⟩ := hall d hd
        exact ⟨ty, List.mem_cons_of_mem _ hty, hd⟩

theorem ImportExpr.alreadyExists_ne_notFound (range : Range) (ty : Ty) (from_ : String)
    (i : IdentExpr) : ImportExpr.alreadyExists range ty ≠ ImportExpr.notFound from_ i := by
  intro h
  have hmsg := congrArg (fun d => d.msg.data.reverse.head?) h
  simp [ImportExpr.alreadyExists, ImportExpr.notFound, String.data_append] at hmsg

theorem TypeTable.get_cons (t : Ty) (rest : TypeTable) (n : String) :
    TypeTable.get (t :: rest) n = if t.name = some n then some t else TypeTable.get rest n := by
  by_cases h : t.name = some n <;> simp [TypeTable.get, h]

theorem TypeTable.get_filterMap_get (tbl : TypeTable) (paths : List String) (p : String)
    (ty : Ty) (hp : p ∈ paths) (hty : tbl.get p = some ty) :
    TypeTable.get (paths.filterMap fun q => tbl.get q) p = some ty := by
  induction paths with
  | nil => cases hp
  | cons q rest ih =>
    rcases hq : tbl.get q with _ | tq
    · have hqp : p ≠ q := by
        intro hc; subst hc; rw [hty] at hq; cases hq
      have hp' : p ∈ rest := by
        rcases List.mem_cons.mp hp with h | h
        · exact absurd h hqp
        · exact h
      rw [List.filterMap_cons, hq]
      exact ih hp'
    · have hname := TypeTable.get_name tbl q tq hq
      rw [List.filterMap_cons, hq, TypeTable.get_cons]
      by_cases hqp : q = p
      · subst hqp
        rw [hty] at hq
        cases hq
        simp [hname]
      · have hp' : p ∈ rest := by
          rcases List.mem_cons.mp hp with h | h
          · exact absurd h.symm hqp
          · exact h
        have hn : tq.name ≠ some p := by
          rw [hname]; intro hc; exact hqp (Option.some.inj hc)
        rw [if_neg hn]
        exact ih hp'

theorem ExportExpr.typecheck_eq {E : Type} (Expr_typecheck : Typecheck E)
    (self : ExportExpr E) (state : UnitParser) (ty : Ty) (s1 : UnitParser)
    (h : Expr_typecheck self.expr state = some (ty, s1)) :
    ExportExpr.typecheck Expr_typecheck self state =
      some (ty,
        { s1 with
          parsed := s1.parsed.addExportedType ty
          errors := (s1.errors ++
            (if ty.isExportable then []
              else [⟨self.range, "Only named structs and nodes are exportable"⟩]) ++
            (if s1.isRootScope then []
              else [⟨self.range, "Export statements may only appear at top-level"⟩])) }) := by
  simp only [ExportExpr.typecheck, h]
  cases hx : ty.isExportable <;> cases hr : s1.isRootScope <;>
    simp only [Bool.not_false, Bool.not_true, if_true, if_false, Bool.false_eq_true,
      UnitParser.isRootScope_error, hr] <;>
    simp [UnitParser.addExportedType, UnitParser.error]

/-! ## Typecheck: theorems -/

/-- C7 — `ExportExpr::typecheck` returns exactly the type of its inner
expression, and the diagnostics it reports itself (`reported`, appended to
those of the inner expression) are: "Only named structs and nodes are
exportable" if and only if that type is not exportable, and "Export statements
may only appear at top-level" if and only if the innermost scope frame is not
the root scope; each stands at the export's range and neither depends on the
other. -/
theorem ExportExpr_typecheck_errors {E : Type} (Expr_typecheck : Typecheck E)
    (self : ExportExpr E) (state : UnitParser) (ty : Ty) (s1 : UnitParser)
    (h : Expr_typecheck self.expr state = some (ty, s1)) :
    ∃ s2 reported, ExportExpr.typecheck Expr_typecheck self state = some (ty, s2) ∧
      s2.errors = s1.errors ++ reported ∧
      reported =
        (if ty.isExportable then []
          else [⟨self.range, "Only named structs and nodes are exportable"⟩]) ++
        (if s1.isRootScope then []
          else [⟨self.range, "Export statements may only appear at top-level"⟩]) ∧
      ((⟨self.range, "Only named structs and nodes are exportable"⟩ : Diagnostic) ∈ reported
        ↔ ty.isExportable = false) ∧
      ((⟨self.range, "Export statements may only appear at top-level"⟩ : Diagnostic)
        ∈ reported ↔ s1.isRootScope = false) := by
  have hne : ("Only named structs and nodes are exportable" : String) ≠
      "Export statements may only appear at top-level" := by decide
  refine ⟨_, _, ExportExpr.typecheck_eq Expr_typecheck self state ty s1 h, ?_, rfl, ?_, ?_⟩
  · simp
  · cases hx : ty.isExportable <;> cases hr : s1.isRootScope <;> simp [hne]
  · cases hx : ty.isExportable <;> cases hr : s1.isRootScope <;> simp [hne.symm]

/-- C7 at an export of a void expression inside a block: both errors. -/
theorem ExportExpr_typecheck_errors_witness :
    ∃ s2 reported,
      ExportExpr.typecheck (fun (_ : Unit) s => some (Ty.void, s)) ⟨(), (0, 2)⟩
          ⟨"", ⟨[]⟩, [⟨none, false, []⟩, ⟨none, true, []⟩], []⟩ = some (Ty.void, s2) ∧
      s2.errors = [] ++ reported ∧
      reported =
        (if Ty.void.isExportable then []
          else [⟨(0, 2), "Only named structs and nodes are exportable"⟩]) ++
        (if UnitParser.isRootScope ⟨"", ⟨[]⟩, [⟨none, false, []⟩, ⟨none, true, []⟩], []⟩
          then []
          else [⟨(0, 2), "Export statements may only appear at top-level"⟩]) ∧
      ((⟨(0, 2), "Only named structs and nodes are exportable"⟩ : Diagnostic) ∈ reported
        ↔ Ty.void.isExportable = false) ∧
      ((⟨(0, 2), "Export statements may only appear at top-level"⟩ : Diagnostic)
        ∈ reported ↔
        UnitParser.isRootScope ⟨"", ⟨[]⟩, [⟨none, false, []⟩, ⟨none, true, []⟩], []⟩ = false) :=
  ExportExpr_typecheck_errors (fun (_ : Unit) s => some (Ty.void, s)) ⟨(), (0, 2)⟩
    ⟨"", ⟨[]⟩, [⟨none, false, []⟩, ⟨none, true, []⟩], []⟩ Ty.void _ rfl

/-- C8 fails as stated: an export of the exportable type `T` inside a block
(innermost frame not root) reports the placement error and still adds `T` to
the exported-type table, which was empty before. -/
theorem ExportExpr_typecheck_registers_despite_error :
    ExportExpr.typecheck (fun (_ : Unit) s => some (⟨TypeKind.Named, some "T", true⟩, s))
        ⟨(), (0, 2)⟩ ⟨"", ⟨[]⟩, [⟨none, false, []⟩, ⟨none, true, []⟩], []⟩
      = some (⟨TypeKind.Named, some "T", true⟩,
          ⟨"", ⟨[⟨TypeKind.Named, some "T", true⟩]⟩, [⟨none, false, []⟩, ⟨none, true, []⟩],
            [⟨(0, 2), "Export statements may only appear at top-level"⟩]⟩) ∧
    ParsedSrc.getExportedType ⟨[]⟩ "T" = none ∧
    ParsedSrc.getExportedType ⟨[⟨TypeKind.Named, some "T", true⟩]⟩ "T"
      = some ⟨TypeKind.Named, some "T", true⟩ := by
  decide

/-- C8 as amended: the errors do not hold the registration back.  In every
case the exported-type table after `ExportExpr::typecheck` is the table the
inner expression left with `addExportedType` applied to the inner type, so a
type that has a name is afterwards present under that name, at file-root scope
or not. -/
theorem ExportExpr_typecheck_registers {E : Type} (Expr_typecheck : Typecheck E)
    (self : ExportExpr E) (state : UnitParser) (ty : Ty) (s1 : UnitParser)
    (h : Expr_typecheck self.expr state = some (ty, s1)) :
    ∃ s2, ExportExpr.typecheck Expr_typecheck self state = some (ty, s2) ∧
      s2.parsed = s1.parsed.addExportedType ty ∧
      ∀ n, ty.getName = some n → s2.parsed.getExportedType n = some ty := by
  refine ⟨_, ExportExpr.typecheck_eq Expr_typecheck self state ty s1 h, rfl, ?_⟩
  intro n hn
  simp [ParsedSrc.addExportedType, ParsedSrc.getExportedType, TypeTable.get_insert _ ty n n hn]

/-- C8 as amended, at the export of `T` inside a block. -/
theorem ExportExpr_typecheck_registers_witness :
    ∃ s2, ExportExpr.typecheck
          (fun (_ : Unit) s => some (⟨TypeKind.Named, some "T", true⟩, s)) ⟨(), (0, 2)⟩
          ⟨"", ⟨[]⟩, [⟨none, false, []⟩, ⟨none, true, []⟩], []⟩
        = some (⟨TypeKind.Named, some "T", true⟩, s2) ∧
      s2.parsed = ParsedSrc.addExportedType ⟨[]⟩ ⟨TypeKind.Named, some "T", true⟩ ∧
      ∀ n, Ty.getName ⟨TypeKind.Named, some "T", true⟩ = some n →
        s2.parsed.getExportedType n = some ⟨TypeKind.Named, some "T", true⟩ :=
  ExportExpr_typecheck_registers (fun (_ : Unit) s => some (⟨TypeKind.Named, some "T", true⟩, s))
    ⟨(), (0, 2)⟩ ⟨"", ⟨[]⟩, [⟨none, false, []⟩, ⟨none, true, []⟩], []⟩
    ⟨TypeKind.Named, some "T", true⟩ _ rfl

theorem ImportExpr.typecheck_loaded {S : Type} (env : Loader S) (self : ImportExpr)
    (state : UnitParser) (src : S) (parsed : ParsedSrc) (log : List Diagnostic)
    (hsrc : env.srcFrom (env.resolve state.searchDir self.from_) = .ok src)
    (hparse : env.parse state.errors src = some (parsed, log)) :
    ImportExpr.typecheck env self state =
      some (Ty.void,
        (if self.imports.isEmpty then parsed.getExportedTypes
          else self.imports.filterMap fun i => parsed.getExportedType i.path).foldl
          (ImportExpr.pushImported self.range)
          { state with errors := (log ++
              if self.imports.isEmpty then []
              else List.map (ImportExpr.notFound self.from_)
                (self.imports.filter fun i => (parsed.getExportedType i.path).isNone)) }) := by
  simp only [ImportExpr.typecheck, hsrc, hparse]
  cases hemp : self.imports.isEmpty
  · simp [ImportExpr.resolve_eq]
  · simp

/-- C9 — selective import.  With a non-empty import list and a target file
that loads, `ImportExpr::typecheck` returns and its diagnostics are: those of
loading the target (`log`), then one "not found" for each listed identifier
absent from the target's exported-type table, at that identifier's range and
in order, then "already exists" diagnostics only (`dup`, none of which is a
"not found").  Every listed path that is present and whose name was not in the
current scope is in the current scope afterwards with the exported type,
whatever else the list holds. -/
theorem ImportExpr_typecheck_selective {S : Type} (env : Loader S) (self : ImportExpr)
    (state : UnitParser) (src : S) (parsed : ParsedSrc) (log : List Diagnostic)
    (hne : self.imports ≠ [])
    (hsrc : env.srcFrom (env.resolve state.searchDir self.from_) = .ok src)
    (hparse : env.parse state.errors src = some (parsed, log))
    (hscope : state.scopes ≠ []) :
    ∃ s2 dup, ImportExpr.typecheck env self state = some (Ty.void, s2) ∧
      s2.errors = log ++
        List.map (ImportExpr.notFound self.from_)
          (self.imports.filter fun i => (parsed.getExportedType i.path).isNone) ++ dup ∧
      (∀ d ∈ dup, (∃ ty, d = ImportExpr.alreadyExists self.range ty) ∧
        ∀ i, d ≠ ImportExpr.notFound self.from_ i) ∧
      (∀ i ∈ self.imports, ∀ ty, parsed.getExportedType i.path = some ty →
        state.getType i.path true = none → s2.getType i.path true = some ty) := by
  have hemp : self.imports.isEmpty = false := by
    cases hi : self.imports
    · exact absurd hi hne
    · rfl
  have hrun := ImportExpr.typecheck_loaded env self state src parsed log hsrc hparse
  simp only [hemp, Bool.false_eq_true, if_false] at hrun
  obtain ⟨dup, hdup, hall⟩ := ImportExpr.errors_foldl_pushImported_shape self.range
    (self.imports.filterMap fun i => parsed.getExportedType i.path)
    { state with errors := (log ++ List.map (ImportExpr.notFound self.from_)
        (self.imports.filter fun i => (parsed.getExportedType i.path).isNone)) }
  refine ⟨_, dup, hrun, hdup, ?_, ?_⟩
  · intro d hd
    obtain ⟨ty, _, hty⟩ := hall d hd
    exact ⟨⟨ty, hty⟩, fun i => hty ▸ ImportExpr.alreadyExists_ne_notFound _ _ _ _⟩
  · intro i hi ty hty hfree
    rw [ImportExpr.getType_foldl_pushImported self.range i.path
      (self.imports.filterMap fun i => parsed.getExportedType i.path)
      { state with errors := (log ++ List.map (ImportExpr.notFound self.from_)
        (self.imports.filter fun i => (parsed.getExportedType i.path).isNone)) } hscope]
    have hget : TypeTable.get
        (self.imports.filterMap fun i => parsed.getExportedType i.path) i.path = some ty := by
      have := TypeTable.get_filterMap_get parsed.exportedTypes (self.imports.map (·.path))
        i.path ty (List.mem_map.mpr ⟨i, hi, rfl⟩) hty
      rw [List.filterMap_map] at this
      exact this
    have hfree' : UnitParser.getType { state with errors := (log ++
        List.map (ImportExpr.notFound self.from_)
          (self.imports.filter fun i => (parsed.getExportedType i.path).isNone)) }
        i.path true = none := hfree
    rw [hfree', hget]
    rfl

/-- C10 — wildcard import.  With an empty import list and a target file that
loads, after `ImportExpr::typecheck` every name of the target's exported-type
table resolves through `getType` in the importing scope: a name that stood in
the innermost frame keeps its previous type, every other exported type is
inserted.  The diagnostics are those of loading the target and then exactly
one "already exists" for each exported type whose name stood in the innermost
frame, in table order. -/
theorem ImportExpr_typecheck_wildcard {S : Type} (env : Loader S) (self : ImportExpr)
    (state : UnitParser) (src : S) (parsed : ParsedSrc) (log : List Diagnostic)
    (hall : self.imports = [])
    (hsrc : env.srcFrom (env.resolve state.searchDir self.from_) = .ok src)
    (hparse : env.parse state.errors src = some (parsed, log))
    (hscope : state.scopes ≠ [])
    (hmap : parsed.exportedTypes.IsMapping) :
    ∃ s2, ImportExpr.typecheck env self state = some (Ty.void, s2) ∧
      (∀ ty ∈ parsed.getExportedTypes, ∀ n, ty.getName = some n →
        (s2.getType n false).isSome ∧
        (∀ t0, state.getType n true = some t0 → s2.getType n true = some t0) ∧
        (state.getType n true = none → s2.getType n true = some ty)) ∧
      s2.errors = log ++
        List.map (ImportExpr.alreadyExists self.range)
          (parsed.getExportedTypes.filter (ImportExpr.clashes state)) := by
  have hrun := ImportExpr.typecheck_loaded env self state src parsed log hsrc hparse
  simp only [hall, List.isEmpty_nil, if_true, List.append_nil] at hrun
  have hget : ∀ n, UnitParser.getType
      (parsed.getExportedTypes.foldl (ImportExpr.pushImported self.range)
        { state with errors := log }) n true =
      (state.getType n true).orElse fun _ => TypeTable.get parsed.getExportedTypes n :=
    fun n => ImportExpr.getType_foldl_pushImported self.range n _ _ hscope
  refine ⟨_, hrun, ?_, ?_⟩
  · intro ty hty n hn
    have hmem : TypeTable.get parsed.getExportedTypes n = some ty := by
      unfold TypeTable.IsMapping at hmap
      unfold ParsedSrc.getExportedTypes at hty ⊢
      generalize parsed.exportedTypes = tbl at hmap hty
      induction tbl with
      | nil => cases hty
      | cons t rest ih =>
        rw [TypeTable.get_cons]
        rcases List.mem_cons.mp hty with heq | hin
        · subst heq
          exact if_pos hn
        · have hrest : (rest.filterMap Ty.name).Nodup := by
            rcases htn : t.name with _ | m
            · simpa [List.filterMap_cons, htn] using hmap
            · simp only [List.filterMap_cons, htn, List.nodup_cons] at hmap
              exact hmap.2
          have hne : t.name ≠ some n := by
            intro hc
            simp only [List.filterMap_cons, hc, List.nodup_cons] at hmap
            exact hmap.1 (List.mem_filterMap.mpr ⟨ty, hin, hn⟩)
          rw [if_neg hne]
          exact ih hrest hin
    refine ⟨?_, ?_, ?_⟩
    · rcases h0 : state.getType n true with _ | t0
      · have := hget n
        rw [h0, hmem] at this
        rw [UnitParser.getType_outward _ n ty this]
        rfl
      · have := hget n
        rw [h0] at this
        rw [UnitParser.getType_outward _ n t0 this]
        rfl
    · intro t0 h0
      rw [hget n, h0]
      rfl
    · intro h0
      rw [hget n, h0, hmem]
      rfl
  · have herr := ImportExpr.errors_foldl_pushImported self.range parsed.getExportedTypes
      { state with errors := log } hmap
    rw [herr]
    rfl

/-- C9 at `import { A, B } from "f"` where `f` exports only `A`: one "not
found" for `B`, and `A` is imported. -/
theorem ImportExpr_typecheck_selective_witness :
    (∃ s2 dup,
      ImportExpr.typecheck (Loader.fixed [Ty.named "A"])
          ⟨"f", [⟨"A", (2, 3)⟩, ⟨"B", (4, 5)⟩], (0, 8)⟩
          (UnitParser.sample [⟨none, true, []⟩]) = some (Ty.void, s2) ∧
      s2.errors = [] ++
        List.map (ImportExpr.notFound "f")
          (List.filter
            (fun i => (ParsedSrc.getExportedType ⟨[Ty.named "A"]⟩ i.path).isNone)
            [⟨"A", (2, 3)⟩, ⟨"B", (4, 5)⟩]) ++ dup ∧
      (∀ d ∈ dup, (∃ ty, d = ImportExpr.alreadyExists (0, 8) ty) ∧
        ∀ i, d ≠ ImportExpr.notFound "f" i) ∧
      (∀ i ∈ [(⟨"A", (2, 3)⟩ : IdentExpr), ⟨"B", (4, 5)⟩], ∀ ty,
        ParsedSrc.getExportedType ⟨[Ty.named "A"]⟩ i.path = some ty →
        (UnitParser.sample [⟨none, true, []⟩]).getType i.path true = none →
        s2.getType i.path true = some ty)) ∧
    ImportExpr.typecheck (Loader.fixed [Ty.named "A"])
        ⟨"f", [⟨"A", (2, 3)⟩, ⟨"B", (4, 5)⟩], (0, 8)⟩ (UnitParser.sample [⟨none, true, []⟩])
      = some (Ty.void,
          ⟨"lib", ⟨[]⟩, [⟨none, true, [Ty.named "A"]⟩],
            [⟨(4, 5), "Type \"B\" not found in \"f\""⟩]⟩) :=
  ⟨ImportExpr_typecheck_selective (Loader.fixed [Ty.named "A"])
      ⟨"f", [⟨"A", (2, 3)⟩, ⟨"B", (4, 5)⟩], (0, 8)⟩ (UnitParser.sample [⟨none, true, []⟩])
      () ⟨[Ty.named "A"]⟩ [] (by decide) rfl rfl (by decide),
   by decide⟩

/-- C10 at `import * from "f"` where `f` exports `A` and `B` and a type `A`
stands in the current scope: one "already exists" for `A`, which keeps its
type, and `B` is inserted. -/
theorem ImportExpr_typecheck_wildcard_witness :
    (∃ s2,
      ImportExpr.typecheck (Loader.fixed [Ty.named "A", Ty.named "B"]) ⟨"f", [], (0, 4)⟩
          (UnitParser.sample [⟨none, true, [⟨TypeKind.Primitive, some "A", false⟩]⟩])
        = some (Ty.void, s2) ∧
      (∀ ty ∈ ParsedSrc.getExportedTypes ⟨[Ty.named "A", Ty.named "B"]⟩,
        ∀ n, ty.getName = some n →
        (s2.getType n false).isSome ∧
        (∀ t0, (UnitParser.sample
            [⟨none, true, [⟨TypeKind.Primitive, some "A", false⟩]⟩]).getType n true = some t0 →
          s2.getType n true = some t0) ∧
        ((UnitParser.sample
            [⟨none, true, [⟨TypeKind.Primitive, some "A", false⟩]⟩]).getType n true = none →
          s2.getType n true = some ty)) ∧
      s2.errors = [] ++
        List.map (ImportExpr.alreadyExists (0, 4))
          (List.filter
            (ImportExpr.clashes (UnitParser.sample
              [⟨none, true, [⟨TypeKind.Primitive, some "A", false⟩]⟩]))
            (ParsedSrc.getExportedTypes ⟨[Ty.named "A", Ty.named "B"]⟩))) ∧
    ImportExpr.typecheck (Loader.fixed [Ty.named "A", Ty.named "B"]) ⟨"f", [], (0, 4)⟩
        (UnitParser.sample [⟨none, true, [⟨TypeKind.Primitive, some "A", false⟩]⟩])
      = some (Ty.void,
          ⟨"lib", ⟨[]⟩,
            [⟨none, true, [Ty.named "B", ⟨TypeKind.Primitive, some "A", false⟩]⟩],
            [⟨(0, 4), "Type \"A\" already exists in this scope"⟩]⟩) :=
  ⟨ImportExpr_typecheck_wildcard (Loader.fixed [Ty.named "A", Ty.named "B"])
      ⟨"f", [], (0, 4)⟩
      (UnitParser.sample [⟨none, true, [⟨TypeKind.Primitive, some "A", false⟩]⟩])
      () ⟨[Ty.named "A", Ty.named "B"]⟩ [] rfl rfl rfl (by decide) (by decide),
   by decide⟩

/-! ## Compiler: lemmas -/

theorem scopeString_data (l : List String) (init : String) :
    (l.foldl (fun stack s => stack ++ (s ++ "::")) init).data =
      init.data ++ (l.map fun s => s.data ++ [':', ':']).flatten := by
  induction l generalizing init with
  | nil => simp
  | cons a rest ih =>
    rw [List.foldl_cons, ih]
    simp [String.data_append]

theorem intercalate_go_data (l : List String) (acc : String) :
    (String.intercalate.go acc "::" l).data =
      acc.data ++ (l.map fun s => [':', ':'] ++ s.data).flatten := by
  induction l generalizing acc with
  | nil => simp [String.intercalate.go]
  | cons a rest ih =>
    rw [String.intercalate.go, ih]
    simp [String.data_append]

theorem join_shift (l : List String) :
    (l.map fun s => [':', ':'] ++ s.data).flatten ++ [':', ':'] =
      [':', ':'] ++ (l.map fun s => s.data ++ [':', ':']).flatten := by
  induction l with
  | nil => rfl
  | cons a rest ih =>
    simp only [List.map_cons, List.flatten_cons, List.append_assoc]
    rw [ih]

/-- The scope string of Compiler.cpp 47-51 for a non-empty stack: the entries
joined with `::`, no trailing separator. -/
theorem eraseLastTwo_scopeString (l : List String) (h : l ≠ []) :
    eraseLastTwo (l.foldl (fun stack s => stack ++ (s ++ "::")) "") =
      .ok (String.intercalate "::" l) := by
  obtain ⟨a, rest, rfl⟩ := List.exists_cons_of_ne_nil h
  have hdata : ((a :: rest).foldl (fun stack s => stack ++ (s ++ "::")) "").data =
      (String.intercalate "::" (a :: rest)).data ++ [':', ':'] := by
    rw [scopeString_data, String.intercalate, intercalate_go_data]
    simp only [List.map_cons, List.flatten_cons, List.append_assoc]
    rw [join_shift]
    simp
  unfold eraseLastTwo
  rw [hdata]
  have hlen : ¬ ((String.intercalate "::" (a :: rest)).data ++ [':', ':']).length < 2 := by
    simp
  rw [if_neg hlen]
  congr 1
  apply String.ext
  simp

theorem Formatter.run_indentation (calls : List IndentCall) :
    ∀ f : Formatter, (f.run calls).indentation =
      f.indentation + 4 * (calls.count IndentCall.push : Int)
        - 4 * (calls.count IndentCall.pop : Int) := by
  induction calls with
  | nil => intro f; simp [Formatter.run]
  | cons c rest ih =>
    intro f
    have hrun : f.run (c :: rest) = (f.call c).run rest := rfl
    rw [hrun, ih]
    cases c
    · simp [Formatter.call, Formatter.pushIndent, List.count_cons]
      ring
    · simp [Formatter.call, Formatter.popIndent, List.count_cons]
      ring

/-! ## Compiler: theorems -/

/-- C12 at its failing input.  With the scope stack `["A"]` and `A::T`
registered, `typeExists("T")` is false: the loop tests `"" + name` in its only
round and ends before the qualification by the innermost scope `A::` is
tested.  The same key is found once a further scope `B` is on the stack, and
the loop's first round only tests the unqualified name again. -/
theorem Compiler_typeExists_innermost_scope :
    Compiler.typeExists ⟨[("A::T", ⟨"t"⟩)], ["A"], [], "m"⟩ "T" = false ∧
    qualified ["A"] "T" = "A::T" ∧
    Compiler.count ⟨[("A::T", ⟨"t"⟩)], ["A"], [], "m"⟩ (qualified ["A"] "T") = 1 ∧
    Compiler.typeExists ⟨[("A::T", ⟨"t"⟩)], ["A", "B"], [], "m"⟩ "T" = true ∧
    Compiler.typeExists ⟨[("A::B::T", ⟨"t"⟩)], ["A", "B"], [], "m"⟩ "T" = false := by
  decide

/-- C13 at its failing inputs.  `getType` is the exact lookup only: with
`A::T` registered and `A` pushed, `getType("T")` is null; and with the stack
`["A", "B"]` `typeExists("T")` is true while `getType("T")` is still null. -/
theorem Compiler_getType_exact_only :
    Compiler.getType (Compiler.pushScope ⟨[("A::T", ⟨"t"⟩)], [], [], "m"⟩ "A") "T" = none ∧
    Compiler.typeExists ⟨[("A::T", ⟨"t"⟩)], ["A", "B"], [], "m"⟩ "T" = true ∧
    Compiler.getType ⟨[("A::T", ⟨"t"⟩)], ["A", "B"], [], "m"⟩ "T" = none ∧
    Compiler.getType ⟨[("A::T", ⟨"t"⟩)], ["A", "B"], [], "m"⟩ "A::T" = some ⟨"t"⟩ ∧
    ∀ (c : Compiler) (name : String), c.getType name = c.types.lookup name := by
  refine ⟨by decide, by decide, by decide, by decide, ?_⟩
  intro c name
  unfold Compiler.getType Compiler.count
  cases h : c.types.lookup name <;> simp

/-- C14 — `popScope` on a non-empty stack: when the top entry equals `name`
it is removed and nothing is logged; otherwise the stack is unchanged and
exactly one error is logged, of kind `InternalError`, with the context string
`"Current scope: "` followed by the entries joined with `::` (outermost first,
no trailing separator).  And `pushScope(n)` followed by `popScope(n)` gives
back the compiler state as it was. -/
theorem Compiler_popScope_nonempty (c : Compiler) (name : String) (h : c.scope ≠ []) :
    (c.scope.getLast? = some name →
      c.popScope name = .ok { c with scope := c.scope.dropLast }) ∧
    (c.scope.getLast? ≠ some name →
      c.popScope name = .ok { c with
        log := (c.log ++
          [⟨Error.InternalError, Compiler.popMessage name, "",
            "Current scope: " ++ String.intercalate "::" c.scope, ⟨0, 0⟩, ⟨0, 0⟩,
            c.source⟩]) }) ∧
    ∀ n, (c.pushScope n).popScope n = .ok c := by
  refine ⟨fun htop => ?_, fun htop => ?_, fun n => ?_⟩
  · simp [Compiler.popScope, htop]
  · obtain ⟨back, hback⟩ : ∃ back, c.scope.getLast? = some back := by
      cases hl : c.scope.getLast? with
      | none => exact absurd (List.getLast?_eq_none_iff.mp hl) h
      | some b => exact ⟨b, rfl⟩
    have hne : back ≠ name := by
      intro hc; rw [hc] at hback; exact htop hback
    simp [Compiler.popScope, hback, hne, eraseLastTwo_scopeString c.scope h]
  · simp [Compiler.popScope, Compiler.pushScope]

/-- C14 at the stack `["A", "B"]`: popping `B` removes it silently, popping
`A` logs the error with context `Current scope: A::B`, and push-then-pop of
`C` restores the state. -/
theorem Compiler_popScope_nonempty_witness :
    Compiler.popScope ⟨[], ["A", "B"], [], "m"⟩ "B" = .ok ⟨[], ["A"], [], "m"⟩ ∧
    Compiler.popScope ⟨[], ["A", "B"], [], "m"⟩ "A"
      = .ok ⟨[], ["A", "B"],
          [⟨Error.InternalError, Compiler.popMessage "A", "", "Current scope: A::B",
            ⟨0, 0⟩, ⟨0, 0⟩, "m"⟩], "m"⟩ ∧
    Compiler.popScope (Compiler.pushScope ⟨[], ["A", "B"], [], "m"⟩ "C") "C"
      = .ok ⟨[], ["A", "B"], [], "m"⟩ :=
  ⟨(Compiler_popScope_nonempty ⟨[], ["A", "B"], [], "m"⟩ "B" (by decide)).1 rfl,
   (Compiler_popScope_nonempty ⟨[], ["A", "B"], [], "m"⟩ "A" (by decide)).2.1 (by decide),
   (Compiler_popScope_nonempty ⟨[], ["A", "B"], [], "m"⟩ "A" (by decide)).2.2 "C"⟩

/-- C15 — formatter toggling: from a fresh `Formatter`, after calls of
`pushIndent` / `popIndent` of which no prefix holds more pops than pushes,
`newline` leaves the stream as it is when `PrettifyOutput` is off and appends
one line break and `4 × L` spaces when it is on, `L` being the number of
pushes minus the number of pops. -/
theorem Formatter_newline_after_calls (calls : List IndentCall) (stream : String)
    (h : ∀ p ∈ calls.inits, p.count IndentCall.pop ≤ p.count IndentCall.push) :
    (Formatter.fresh.run calls).newline false stream = stream ∧
    (Formatter.fresh.run calls).newline true stream =
      stream ++ "\n" ++
        String.mk (List.replicate
          (4 * (calls.count IndentCall.push - calls.count IndentCall.pop)) ' ') := by
  have hall := h calls ((List.mem_inits _ _).mpr (List.prefix_refl _))
  have hind : (Formatter.fresh.run calls).indentation.toNat =
      4 * (calls.count IndentCall.push - calls.count IndentCall.pop) := by
    rw [Formatter.run_indentation]
    simp only [Formatter.fresh]
    omega
  refine ⟨by simp [Formatter.newline], ?_⟩
  simp [Formatter.newline, hind]

/-- C15 after push, push, pop: one level of indentation is left, four spaces. -/
theorem Formatter_newline_after_calls_witness :
    (Formatter.fresh.run [IndentCall.push, IndentCall.push, IndentCall.pop]).newline false "x;"
      = "x;" ∧
    (Formatter.fresh.run [IndentCall.push, IndentCall.push, IndentCall.pop]).newline true "x;"
      = "x;" ++ "\n" ++ String.mk (List.replicate (4 * (2 - 1)) ' ') :=
  Formatter_newline_after_calls [IndentCall.push, IndentCall.push, IndentCall.pop] "x;"
    (by decide)

/-- C19 at its failing input, the empty stack: `m_scope.back()` on line 44 has
no element to read, whatever the name, the registry and the log; and the
scope string built on lines 47-50 would then be empty, so that the erase of
its last two characters on line 51 lies outside the string. -/
theorem Compiler_popScope_empty_stack :
    (∀ (types : List (String × CodegenType)) (log : List LoggedError) (source name : String),
      Compiler.popScope ⟨types, [], log, source⟩ name
        = .undefined Fault.backOfEmptyVector) ∧
    eraseLastTwo (([] : List String).foldl (fun stack s => stack ++ (s ++ "::")) "")
      = .undefined Fault.eraseOutOfRange :=
  ⟨fun _ _ _ _ => rfl, by decide⟩

/-! ## Top-level rule: lemmas and theorem -/

theorem Token.pullSemicolons_ok_peek (src : List Token) (pos r : Nat)
    (h : Token.pullSemicolons src pos = (.ok (), r)) :
    Token.peek src pos = some (Token.Punct ';') := by
  unfold Token.pullSemicolons Token.pull at h
  by_cases hp : Token.peekIs (Token.Punct ';') src pos = true
  · simpa [Token.peekIs] using hp
  · simp [hp] at h

theorem Token.peek_none_of_spaces (src : List Token) (h : ∀ t ∈ src, t = Token.Space)
    (pos : Nat) : Token.peek src pos = none := by
  unfold Token.peek
  cases hg : src[Token.skipToNext src pos]? with
  | none => rfl
  | some t =>
    exfalso
    have hmem : t ∈ src := List.getElem?_mem hg
    have ht := h t hmem
    subst ht
    -- the token reached by skipToNext is never white space
    have hdrop : ∀ (l : List Token), l[Token.spaces l]? ≠ some Token.Space := by
      intro l
      induction l with
      | nil => simp [Token.spaces]
      | cons a rest ih =>
        cases a with
        | Space => simpa [Token.spaces] using ih
        | _ => simp [Token.spaces]
    have := hdrop (src.drop pos)
    rw [List.getElem?_drop] at this
    exact this hg

theorem pulledWithTerminators_append {E : Type} (Expr_pull : Rule E) (src : List Token)
    (es : List E) : ∀ (pos mid : Nat) (e : E) (q r : Nat),
      pulledWithTerminators Expr_pull src pos es mid →
      Expr_pull src mid = some (.ok e, q) →
      Token.peek src q = some (Token.Punct ';') →
      Token.pullSemicolons src q = (.ok (), r) →
      pulledWithTerminators Expr_pull src pos (es ++ [e]) r := by
  induction es with
  | nil =>
    intro pos mid e q r h hp hk hs
    simp only [pulledWithTerminators] at h
    subst h
    exact ⟨q, r, hp, hk, hs, rfl⟩
  | cons a rest ih =>
    intro pos mid e q r h hp hk hs
    obtain ⟨q1, r1, h1, h2, h3, h4⟩ := h
    exact ⟨q1, r1, h1, h2, h3, ih r1 mid e q r h4 hp hk hs⟩

theorem AST.pullLoop_ok {E : Type} (Expr_pull : Rule E) (src : List Token) (start : Nat) :
    ∀ (fuel pos : Nat) (acc l : List E) (p : Nat),
      pulledWithTerminators Expr_pull src start acc pos →
      AST.pullLoop Expr_pull src fuel pos acc = some (.ok l, p) →
      l ≠ [] ∧ pulledWithTerminators Expr_pull src start l p ∧ Token.peek src p = none := by
  intro fuel
  induction fuel with
  | zero => intro pos acc l p _ h; simp [AST.pullLoop] at h
  | succ fuel ih =>
    intro pos acc l p hacc h
    rw [AST.pullLoop] at h
    rcases hp : Expr_pull src pos with _ | ⟨res, q⟩
    · simp [hp, unwrapInto] at h
    · cases res with
      | error e => simp [hp, unwrapInto] at h
      | ok e =>
        rcases hs : Token.pullSemicolons src q with ⟨sres, r⟩
        cases sres with
        | error e2 => simp [hp, hs, unwrapInto] at h
        | ok u =>
          have hchain := pulledWithTerminators_append Expr_pull src acc start pos e q r hacc hp
            (Token.pullSemicolons_ok_peek src q r hs) hs
          simp only [hp, hs, unwrapInto] at h
          by_cases hend : (Token.peek src r).isNone = true
          · simp only [hend, if_true, Option.some.injEq, Prod.mk.injEq,
              ParseResult.ok.injEq] at h
            obtain ⟨hl, hr⟩ := h
            subst hl; subst hr
            exact ⟨by simp, hchain, by simpa using hend⟩
          · simp only [hend, Bool.false_eq_true, if_false] at h
            exact ih r (acc ++ [e]) l p hchain h

/-- C20 — `AST::pull` never yields an empty compilation unit.  Whenever it
succeeds the expression list is not empty, every element is a result of
`Expr::pull` that was followed by the statement terminator `;` (pulled by
`Token::pullSemicolons`), the elements lie one after another from the position
`Token::skipToNext` reached to the final cursor, and no token is left at the
final cursor.  On a source of white space only (or an empty one) it returns a
parse error, if `Expr::pull` returns at all. -/
theorem AST_pull_nonempty_unit {E : Type} (Expr_pull : Rule E) (fuel : Nat)
    (src : List Token) (pos : Nat) :
    (∀ ast p, AST.pull Expr_pull fuel src pos = some (.ok ast, p) →
      ast.exprs ≠ [] ∧
      pulledWithTerminators Expr_pull src (Token.skipToNext src pos) ast.exprs p ∧
      Token.peek src p = none) ∧
    ((∀ t ∈ src, t = Token.Space) → Expr_pull src (Token.skipToNext src pos) ≠ none →
      ∃ e, AST.pull Expr_pull (fuel + 1) src pos
        = some (.error e, Token.skipToNext src pos)) := by
  refine ⟨?_, ?_⟩
  · intro ast p h
    unfold AST.pull Rollback.frame at h
    rcases hl : AST.pullLoop Expr_pull src fuel (Token.skipToNext src pos) []
      with _ | ⟨res, q⟩
    · simp [hl, unwrapInto] at h
    · cases res with
      | error e => simp [hl, unwrapInto] at h
      | ok l =>
        simp only [hl, unwrapInto, Option.some.injEq, Prod.mk.injEq,
          ParseResult.ok.injEq] at h
        obtain ⟨hast, hq⟩ := h
        subst hast; subst hq
        exact AST.pullLoop_ok Expr_pull src _ fuel _ [] l q rfl hl
  · intro hsp hret
    rcases hp : Expr_pull src (Token.skipToNext src pos) with _ | ⟨res, q⟩
    · exact absurd hp hret
    · cases res with
      | error e =>
        exact ⟨e, by simp [AST.pull, Rollback.frame, AST.pullLoop, hp, unwrapInto]⟩
      | ok v =>
        have hpeek := Token.peek_none_of_spaces src hsp q
        have hsemi : Token.pullSemicolons src q = (.error .tokenMismatch, q) := by
          simp [Token.pullSemicolons, Token.pull, Token.peekIs, hpeek]
        exact ⟨.tokenMismatch,
          by simp [AST.pull, Rollback.frame, AST.pullLoop, hp, hsemi, unwrapInto]⟩

/-- C20 at `a; b;` (a unit of two elements, cursor at the end) and at a source
of two white-space elements (a parse error). -/
theorem AST_pull_nonempty_unit_witness :
    AST.pull IdentExpr.pull 2
        [Token.Ident "a", Token.Punct ';', Token.Ident "b", Token.Punct ';'] 0
      = some (.ok ⟨[⟨"a", (0, 1)⟩, ⟨"b", (2, 3)⟩], (0, 4)⟩, 4) ∧
    ((⟨[⟨"a", (0, 1)⟩, ⟨"b", (2, 3)⟩], (0, 4)⟩ : AST IdentExpr).exprs ≠ [] ∧
      pulledWithTerminators IdentExpr.pull
        [Token.Ident "a", Token.Punct ';', Token.Ident "b", Token.Punct ';']
        (Token.skipToNext
          [Token.Ident "a", Token.Punct ';', Token.Ident "b", Token.Punct ';'] 0)
        (⟨[⟨"a", (0, 1)⟩, ⟨"b", (2, 3)⟩], (0, 4)⟩ : AST IdentExpr).exprs 4 ∧
      Token.peek [Token.Ident "a", Token.Punct ';', Token.Ident "b", Token.Punct ';'] 4
        = none) ∧
    ∃ e, AST.pull IdentExpr.pull (0 + 1) [Token.Space, Token.Space] 0
      = some (.error e, Token.skipToNext [Token.Space, Token.Space] 0) :=
  ⟨by decide,
   (AST_pull_nonempty_unit IdentExpr.pull 2
      [Token.Ident "a", Token.Punct ';', Token.Ident "b", Token.Punct ';'] 0).1 _ 4
      (by decide),
   (AST_pull_nonempty_unit IdentExpr.pull 0 [Token.Space, Token.Space] 0).2
      (by decide) (by decide)⟩

/-! ## Imports and shadowing -/

theorem ImportExpr.getType_pushImported (range : Range) (state : UnitParser) (t : Ty)
    (n : String) (t0 : Ty) (h : state.getType n true = some t0) :
    (ImportExpr.pushImported range state t).getType n true = some t0 := by
  have hs : state.scopes ≠ [] := by
    intro hc
    simp [UnitParser.getType, hc] at h
  have := ImportExpr.getType_foldl_pushImported range n [t] state hs
  simp only [List.foldl_cons, List.foldl_nil] at this
  rw [this, h]
  rfl

theorem ImportExpr.errors_foldl_mono (range : Range) (imported : List Ty)
    (state : UnitParser) (d : Diagnostic) (hd : d ∈ state.errors) :
    d ∈ (imported.foldl (ImportExpr.pushImported range) state).errors := by
  obtain ⟨dup, hdup, _⟩ := ImportExpr.errors_foldl_pushImported_shape range imported state
  rw [hdup]
  exact List.mem_append_left _ hd

/-- An imported type whose name stands in the innermost frame is reported by
the loop of AST.cpp 111-120. -/
theorem ImportExpr.alreadyExists_mem_foldl (range : Range) (n : String) (ty t0 : Ty)
    (hn : ty.getName = some n) (imported : List Ty) :
    ∀ state : UnitParser, ty ∈ imported → state.getType n true = some t0 →
      ImportExpr.alreadyExists range ty ∈
        (imported.foldl (ImportExpr.pushImported range) state).errors := by
  induction imported with
  | nil => intro state h; cases h
  | cons t rest ih =>
    intro state hmem hlocal
    rw [List.foldl_cons]
    rcases List.mem_cons.mp hmem with heq | hin
    · subst heq
      apply ImportExpr.errors_foldl_mono
      rw [ImportExpr.errors_pushImported]
      have hclash : ImportExpr.clashes state ty = true := by
        simp [ImportExpr.clashes, hn, hlocal]
      simp [hclash]
    · exact ih _ hin (ImportExpr.getType_pushImported range state t n t0 hlocal)

/-- C11 fails as stated: `A` is visible before the import through the
enclosing (root) frame only; `import * from "f"`, where `f` exports a type
`A`, reports nothing and inserts the imported `A` into the innermost frame, so
that looking `A` up afterwards yields the imported type, not the one found
before. -/
theorem ImportExpr_typecheck_shadows_outer :
    UnitParser.getType
        (UnitParser.sample
          [⟨none, false, []⟩, ⟨none, true, [⟨TypeKind.Primitive, some "A", false⟩]⟩])
        "A" false = some ⟨TypeKind.Primitive, some "A", false⟩ ∧
    ImportExpr.typecheck (Loader.fixed [Ty.named "A"]) ⟨"f", [], (0, 4)⟩
        (UnitParser.sample
          [⟨none, false, []⟩, ⟨none, true, [⟨TypeKind.Primitive, some "A", false⟩]⟩])
      = some (Ty.void,
          ⟨"lib", ⟨[]⟩,
            [⟨none, false, [Ty.named "A"]⟩,
              ⟨none, true, [⟨TypeKind.Primitive, some "A", false⟩]⟩], []⟩) ∧
    UnitParser.getType
        ⟨"lib", ⟨[]⟩,
          [⟨none, false, [Ty.named "A"]⟩,
            ⟨none, true, [⟨TypeKind.Primitive, some "A", false⟩]⟩], []⟩
        "A" false = some (Ty.named "A") ∧
    Ty.named "A" ≠ ⟨TypeKind.Primitive, some "A", false⟩ := by
  decide

/-- C11 as amended: imports never shadow a name of the current (innermost)
scope frame.  When the target loads and the import resolves a type `ty` whose
name `n` stood in the innermost frame (`getType(n, true)` found `t0`), the
"already exists in this scope" error for `ty` is reported at the import's
range, and looking `n` up afterwards, locally or through all frames, yields
`t0` as before. -/
theorem ImportExpr_typecheck_local_clash {S : Type} (env : Loader S) (self : ImportExpr)
    (state : UnitParser) (src : S) (parsed : ParsedSrc) (log : List Diagnostic)
    (ty t0 : Ty) (n : String)
    (hsrc : env.srcFrom (env.resolve state.searchDir self.from_) = .ok src)
    (hparse : env.parse state.errors src = some (parsed, log))
    (hty : ty ∈ ImportExpr.resolved parsed self)
    (hn : ty.getName = some n)
    (hlocal : state.getType n true = some t0) :
    ∃ s2, ImportExpr.typecheck env self state = some (Ty.void, s2) ∧
      ImportExpr.alreadyExists self.range ty ∈ s2.errors ∧
      s2.getType n true = some t0 ∧
      s2.getType n false = some t0 := by
  have hrun := ImportExpr.typecheck_loaded env self state src parsed log hsrc hparse
  refine ⟨_, hrun, ?_, ?_⟩
  · exact ImportExpr.alreadyExists_mem_foldl self.range n ty t0 hn _ _ hty hlocal
  · have hs : state.scopes ≠ [] := by
      intro hc
      simp [UnitParser.getType, hc] at hlocal
    have hget := ImportExpr.getType_foldl_pushImported self.range n
      (if self.imports.isEmpty then parsed.getExportedTypes
        else self.imports.filterMap fun i => parsed.getExportedType i.path)
      { state with errors := (log ++
          if self.imports.isEmpty then []
          else List.map (ImportExpr.notFound self.from_)
            (self.imports.filter fun i => (parsed.getExportedType i.path).isNone)) } hs
    have hlocal' : UnitParser.getType { state with errors := (log ++
          if self.imports.isEmpty then []
          else List.map (ImportExpr.notFound self.from_)
            (self.imports.filter fun i => (parsed.getExportedType i.path).isNone)) }
        n true = some t0 := hlocal
    rw [hlocal'] at hget
    have hkeep : UnitParser.getType _ n true = some t0 := hget
    exact ⟨hkeep, UnitParser.getType_outward _ n t0 hkeep⟩

/-- C11 as amended, at `import * from "f"` with `A` exported by `f` and a
type `A` in the innermost frame. -/
theorem ImportExpr_typecheck_local_clash_witness :
    ∃ s2,
      ImportExpr.typecheck (Loader.fixed [Ty.named "A"]) ⟨"f", [], (0, 4)⟩
          (UnitParser.sample [⟨none, true, [⟨TypeKind.Primitive, some "A", false⟩]⟩])
        = some (Ty.void, s2) ∧
      ImportExpr.alreadyExists (0, 4) (Ty.named "A") ∈ s2.errors ∧
      s2.getType "A" true = some ⟨TypeKind.Primitive, some "A", false⟩ ∧
      s2.getType "A" false = some ⟨TypeKind.Primitive, some "A", false⟩ :=
  ImportExpr_typecheck_local_clash (Loader.fixed [Ty.named "A"]) ⟨"f", [], (0, 4)⟩
    (UnitParser.sample [⟨none, true, [⟨TypeKind.Primitive, some "A", false⟩]⟩])
    () ⟨[Ty.named "A"]⟩ [] (Ty.named "A") ⟨TypeKind.Primitive, some "A", false⟩ "A"
    rfl rfl (by decide) rfl (by decide)

/-! ## Scope discipline: lemmas -/

theorem UnitParser.sameOuterFrames_refl (s : UnitParser) : UnitParser.sameOuterFrames s s :=
  ⟨rfl, rfl⟩

theorem UnitParser.sameOuterFrames_trans (s1 s2 s3 : UnitParser)
    (h12 : UnitParser.sameOuterFrames s1 s2) (h23 : UnitParser.sameOuterFrames s2 s3) :
    UnitParser.sameOuterFrames s1 s3 :=
  ⟨h23.1.trans h12.1, h23.2.trans h12.2⟩

theorem UnitParser.sameOuterFrames_of_scopes_eq (s1 s2 : UnitParser)
    (h : s2.scopes = s1.scopes) : UnitParser.sameOuterFrames s1 s2 :=
  ⟨by rw [h], by rw [h]⟩

theorem UnitParser.sameOuterFrames_pushType (s : UnitParser) (ty : Ty) :
    UnitParser.sameOuterFrames s (s.pushType ty) := by
  unfold UnitParser.pushType
  rcases hsc : s.scopes with _ | ⟨f, outer⟩
  · exact ⟨rfl, rfl⟩
  · simp [UnitParser.sameOuterFrames, hsc]

theorem ImportExpr.sameOuterFrames_pushImported (range : Range) (s : UnitParser) (ty : Ty) :
    UnitParser.sameOuterFrames s (ImportExpr.pushImported range s ty) := by
  unfold ImportExpr.pushImported
  split
  · split
    · exact ⟨rfl, rfl⟩
    · exact UnitParser.sameOuterFrames_pushType s ty
  · exact ⟨rfl, rfl⟩

theorem ImportExpr.sameOuterFrames_foldl (range : Range) (imported : List Ty) :
    ∀ s : UnitParser,
      UnitParser.sameOuterFrames s (imported.foldl (ImportExpr.pushImported range) s) := by
  induction imported with
  | nil => intro s; exact ⟨rfl, rfl⟩
  | cons t rest ih =>
    intro s
    exact UnitParser.sameOuterFrames_trans _ _ _
      (ImportExpr.sameOuterFrames_pushImported range s t) (ih _)

theorem ImportExpr.sameOuterFrames_typecheck_import {S : Type} (env : Loader S) (self : ImportExpr)
    (state : UnitParser) (ty : Ty) (s2 : UnitParser)
    (h : ImportExpr.typecheck env self state = some (ty, s2)) :
    UnitParser.sameOuterFrames state s2 := by
  rcases hsrc : env.srcFrom (env.resolve state.searchDir self.from_) with err | src
  · simp only [ImportExpr.typecheck, hsrc, Option.some.injEq, Prod.mk.injEq] at h
    rw [← h.2]
    exact ⟨rfl, rfl⟩
  · rcases hparse : env.parse state.errors src with _ | ⟨parsed, log⟩
    · simp [ImportExpr.typecheck, hsrc, hparse] at h
    · rw [ImportExpr.typecheck_loaded env self state src parsed log hsrc hparse] at h
      simp only [Option.some.injEq, Prod.mk.injEq] at h
      rw [← h.2]
      exact ImportExpr.sameOuterFrames_foldl self.range _ _

theorem typecheckEach_sameOuterFrames {E : Type} (Expr_typecheck : Typecheck E)
    (exprs : List E)
    (hchildren : ∀ e ∈ exprs, ∀ s t s2, Expr_typecheck e s = some (t, s2) →
      UnitParser.sameOuterFrames s s2) :
    ∀ s s2, typecheckEach Expr_typecheck exprs s = some s2 →
      UnitParser.sameOuterFrames s s2 := by
  induction exprs with
  | nil =>
    intro s s2 h
    simp only [typecheckEach, Option.some.injEq] at h
    rw [← h]
    exact ⟨rfl, rfl⟩
  | cons e rest ih =>
    intro s s2 h
    rcases he : Expr_typecheck e s with _ | ⟨t, s1⟩
    · simp [typecheckEach, he] at h
    · simp only [typecheckEach, he] at h
      exact UnitParser.sameOuterFrames_trans _ _ _
        (hchildren e (List.mem_cons_self _ _) s t s1 he)
        (ih (fun e' he' => hchildren e' (List.mem_cons_of_mem _ he')) s1 s2 h)

theorem ListExpr.sameOuterFrames_typecheck_list {E : Type} (Expr_typecheck : Typecheck E)
    (self : ListExpr E)
    (hchildren : ∀ e ∈ self.exprs, ∀ s t s2, Expr_typecheck e s = some (t, s2) →
      UnitParser.sameOuterFrames s s2)
    (s : UnitParser) (ty : Ty) (s2 : UnitParser)
    (h : ListExpr.typecheck Expr_typecheck self s = some (ty, s2)) :
    UnitParser.sameOuterFrames s s2 := by
  unfold ListExpr.typecheck at h
  rcases hl : typecheckEach Expr_typecheck self.exprs s with _ | s1
  · simp [hl] at h
  · simp only [hl, Option.some.injEq, Prod.mk.injEq] at h
    rw [← h.2]
    exact typecheckEach_sameOuterFrames Expr_typecheck self.exprs hchildren s s1 hl

theorem AST.sameOuterFrames_typecheck_unit {E : Type} (Expr_typecheck : Typecheck E)
    (self : AST E)
    (hchildren : ∀ e ∈ self.exprs, ∀ s t s2, Expr_typecheck e s = some (t, s2) →
      UnitParser.sameOuterFrames s s2)
    (s : UnitParser) (ty : Ty) (s2 : UnitParser)
    (h : AST.typecheck Expr_typecheck self s = some (ty, s2)) :
    UnitParser.sameOuterFrames s s2 := by
  unfold AST.typecheck at h
  rcases hl : typecheckEach Expr_typecheck self.exprs s with _ | s1
  · simp [hl] at h
  · simp only [hl, Option.some.injEq, Prod.mk.injEq] at h
    rw [← h.2]
    exact typecheckEach_sameOuterFrames Expr_typecheck self.exprs hchildren s s1 hl

theorem UnitParser.popScope_of_pushed (state s1 : UnitParser)
    (h : UnitParser.sameOuterFrames (state.pushScope none false) s1) :
    s1.popScope.scopes = state.scopes := by
  have := h.2
  simpa [UnitParser.popScope, UnitParser.pushScope] using this

theorem BlockExpr.typecheck_scopes {E : Type} (Expr_typecheck : Typecheck E)
    (self : BlockExpr E)
    (hchildren : ∀ e ∈ self.expr.exprs, ∀ s t s2, Expr_typecheck e s = some (t, s2) →
      UnitParser.sameOuterFrames s s2)
    (state : UnitParser) (ret : Ty) (s2 : UnitParser)
    (h : BlockExpr.typecheck Expr_typecheck self state = some (ret, s2)) :
    s2.scopes = state.scopes ∧
      ∃ s1, ListExpr.typecheck Expr_typecheck self.expr (state.pushScope none false)
        = some (ret, s1) := by
  unfold BlockExpr.typecheck at h
  rcases hl : ListExpr.typecheck Expr_typecheck self.expr (state.pushScope none false)
    with _ | ⟨r, s1⟩
  · simp [hl] at h
  · simp only [hl, Option.some.injEq, Prod.mk.injEq] at h
    obtain ⟨hr, hs⟩ := h
    subst hr; subst hs
    exact ⟨UnitParser.popScope_of_pushed state s1
      (ListExpr.sameOuterFrames_typecheck_list Expr_typecheck self.expr hchildren _ _ _ hl),
      s1, rfl⟩

theorem ExportExpr.sameOuterFrames_typecheck_export {E : Type} (Expr_typecheck : Typecheck E)
    (self : ExportExpr E)
    (hchild : ∀ s t s2, Expr_typecheck self.expr s = some (t, s2) →
      UnitParser.sameOuterFrames s s2)
    (s : UnitParser) (ty : Ty) (s2 : UnitParser)
    (h : ExportExpr.typecheck Expr_typecheck self s = some (ty, s2)) :
    UnitParser.sameOuterFrames s s2 := by
  rcases he : Expr_typecheck self.expr s with _ | ⟨t, s1⟩
  · simp [ExportExpr.typecheck, he] at h
  · rw [ExportExpr.typecheck_eq Expr_typecheck self s t s1 he] at h
    simp only [Option.some.injEq, Prod.mk.injEq] at h
    rw [← h.2]
    exact hchild s t s1 he

theorem AttrExpr.sameOuterFrames_typecheck_attr {E : Type} (Expr_typecheck : Typecheck E)
    (self : AttrExpr E)
    (hchild : ∀ v, self.value = some v → ∀ s t s2, Expr_typecheck v s = some (t, s2) →
      UnitParser.sameOuterFrames s s2)
    (s : UnitParser) (ty : Ty) (s2 : UnitParser)
    (h : AttrExpr.typecheck Expr_typecheck self s = some (ty, s2)) :
    UnitParser.sameOuterFrames s s2 := by
  unfold AttrExpr.typecheck at h
  rcases hv : self.value with _ | v
  · simp only [hv, Option.some.injEq, Prod.mk.injEq] at h
    rw [← h.2]
    exact ⟨rfl, rfl⟩
  · rcases he : Expr_typecheck v s with _ | ⟨t, s1⟩
    · simp [hv, he] at h
    · simp only [hv, he, Option.some.injEq, Prod.mk.injEq] at h
      rw [← h.2]
      exact hchild v hv s t s1 he

theorem ReturnExpr.sameOuterFrames_typecheck_return {E : Type} (Expr_typecheck : Typecheck E)
    (self : ReturnExpr E)
    (hchild : ∀ v, self.expr = some v → ∀ s t s2, Expr_typecheck v s = some (t, s2) →
      UnitParser.sameOuterFrames s s2)
    (s : UnitParser) (ty : Ty) (s2 : UnitParser)
    (h : ReturnExpr.typecheck Expr_typecheck self s = some (ty, s2)) :
    UnitParser.sameOuterFrames s s2 := by
  unfold ReturnExpr.typecheck at h
  rcases hv : self.expr with _ | v
  · simp only [hv, Option.some.injEq, Prod.mk.injEq] at h
    rw [← h.2]
    exact ⟨rfl, rfl⟩
  · simp only [hv] at h
    exact hchild v hv s ty s2 h

/-- Every node of the tree leaves the scope stack as it found it, up to types
inserted into the innermost frame. -/
theorem Expr.sameOuterFrames_typecheck_tree (files : Files) :
    ∀ (depth : Nat) (e : Expr) (s : UnitParser) (t : Ty) (s2 : UnitParser),
      Expr.typecheck files depth e s = some (t, s2) → UnitParser.sameOuterFrames s s2 := by
  intro depth
  induction depth with
  | zero => intro e s t s2 h; simp [Expr.typecheck] at h
  | succ depth ih =>
    intro e s t s2 h
    cases e with
    | Attr node =>
      exact AttrExpr.sameOuterFrames_typecheck_attr _ node (fun v _ => ih v) s t s2 h
    | Export node =>
      exact ExportExpr.sameOuterFrames_typecheck_export _ node (ih node.expr) s t s2 h
    | Import node =>
      exact ImportExpr.sameOuterFrames_typecheck_import _ node s t s2 h
    | List node =>
      exact ListExpr.sameOuterFrames_typecheck_list _ node (fun e _ => ih e) s t s2 h
    | Return node =>
      exact ReturnExpr.sameOuterFrames_typecheck_return _ node (fun v _ => ih v) s t s2 h
    | Block node =>
      exact UnitParser.sameOuterFrames_of_scopes_eq _ _
        (BlockExpr.typecheck_scopes _ node (fun e _ => ih e) s t s2 h).1
    | TopLevel node =>
      exact AST.sameOuterFrames_typecheck_unit _ node (fun e _ => ih e) s t s2 h

/-! ## Scope discipline, load failures, termination: theorems -/

/-- C16 — block scope discipline.  For a block whose child expressions each
leave the scope stack as they found it (up to types inserted into the
innermost frame, as an import does): when the inner list returns, the block
returns the list's type and the scope stack after `BlockExpr::typecheck` is
the stack before it, the pushed frame and what was inserted into it gone; and
every return of the block is of that kind.  Hence `typecheck` of any tree of
`Attr`, `Export`, `Import`, `List`, `Return`, `Block` and `TopLevel` nodes
preserves the depth of the scope stack. -/
theorem BlockExpr_typecheck_scope_discipline {E : Type} (Expr_typecheck : Typecheck E)
    (self : BlockExpr E) (state : UnitParser)
    (hchildren : ∀ e ∈ self.expr.exprs, ∀ s t s2, Expr_typecheck e s = some (t, s2) →
      UnitParser.sameOuterFrames s s2) :
    (∀ ret s1,
      ListExpr.typecheck Expr_typecheck self.expr (state.pushScope none false)
        = some (ret, s1) →
      BlockExpr.typecheck Expr_typecheck self state = some (ret, s1.popScope) ∧
      s1.popScope.scopes = state.scopes) ∧
    (∀ ret s2, BlockExpr.typecheck Expr_typecheck self state = some (ret, s2) →
      s2.scopes = state.scopes ∧
      ∃ s1, ListExpr.typecheck Expr_typecheck self.expr (state.pushScope none false)
        = some (ret, s1)) ∧
    (∀ (files : Files) (depth : Nat) (e : Expr) (s : UnitParser) (t : Ty) (s2 : UnitParser),
      Expr.typecheck files depth e s = some (t, s2) →
      s2.scopes.length = s.scopes.length) := by
  refine ⟨fun ret s1 hl => ⟨by simp [BlockExpr.typecheck, hl], ?_⟩,
    fun ret s2 h => BlockExpr.typecheck_scopes Expr_typecheck self hchildren state ret s2 h,
    fun files depth e s t s2 h => (Expr.sameOuterFrames_typecheck_tree files depth e s t s2 h).1⟩
  exact UnitParser.popScope_of_pushed state s1
    (ListExpr.sameOuterFrames_typecheck_list Expr_typecheck self.expr hchildren _ _ _ hl)

/-- C16 at a block whose only child inserts the type `A` into the current
frame: after the block the stack is the root frame alone, as before. -/
theorem BlockExpr_typecheck_scope_discipline_witness :
    BlockExpr.typecheck (fun (t : Ty) s => some (t, s.pushType t))
        ⟨⟨[Ty.named "A"], (1, 2)⟩, (0, 3)⟩ (UnitParser.sample [⟨none, true, []⟩])
      = some (Ty.void,
          UnitParser.popScope
            ⟨"lib", ⟨[]⟩, [⟨none, false, [Ty.named "A"]⟩, ⟨none, true, []⟩], []⟩) ∧
    (UnitParser.popScope
        ⟨"lib", ⟨[]⟩, [⟨none, false, [Ty.named "A"]⟩, ⟨none, true, []⟩], []⟩).scopes
      = (UnitParser.sample [⟨none, true, []⟩]).scopes :=
  (BlockExpr_typecheck_scope_discipline (fun (t : Ty) s => some (t, s.pushType t))
    ⟨⟨[Ty.named "A"], (1, 2)⟩, (0, 3)⟩ (UnitParser.sample [⟨none, true, []⟩])
    (fun _ _ s t s2 h => by
      simp only [Option.some.injEq, Prod.mk.injEq] at h
      rw [← h.2]
      exact UnitParser.sameOuterFrames_pushType s _)).1 Ty.void
    ⟨"lib", ⟨[]⟩, [⟨none, false, [Ty.named "A"]⟩, ⟨none, true, []⟩], []⟩ (by decide)

/-- C17 fails as stated: no file can be loaded, the unit is
`import * from "a"; export return;`.  The import reports the load error, the
pass goes on to the export, which is typechecked and reports a further
diagnostic after the load error. -/
theorem typecheck_goes_on_after_load_failure :
    Files.missing.srcFrom (Files.missing.resolve "lib" "a") = .error "cannot open lib/a" ∧
    Expr.typecheck Files.missing 3
        (Expr.TopLevel
          ⟨[Expr.Import ⟨"a", [], (0, 4)⟩,
            Expr.Export ⟨Expr.Return ⟨none, none, (6, 7)⟩, (5, 7)⟩], (0, 8)⟩)
        (UnitParser.sample [⟨none, true, []⟩])
      = some (Ty.void,
          ⟨"lib", ⟨[]⟩, [⟨none, true, []⟩],
            [⟨(0, 4), "cannot open lib/a"⟩,
             ⟨(5, 7), "Only named structs and nodes are exportable"⟩]⟩) := by
  refine ⟨rfl, ?_⟩
  decide

/-- C17 as amended: a load failure does not stop the pass.  The import that
fails reports the load error at its range and returns `Void`, the state
otherwise unchanged, and in a `TopLevel` or `List` sequence the expressions
after it are typechecked exactly as they are from the state with the load
error reported. -/
theorem typecheck_after_load_failure (files : Files) (depth : Nat) (node : ImportExpr)
    (rest : List Expr) (range : Range) (state : UnitParser) (err : String)
    (hload : files.srcFrom (files.resolve state.searchDir node.from_) = .error err) :
    Expr.typecheck files (depth + 1) (Expr.Import node) state
      = some (Ty.void, state.error node.range err) ∧
    Expr.typecheck files (depth + 2) (Expr.TopLevel ⟨Expr.Import node :: rest, range⟩) state
      = Expr.typecheck files (depth + 2) (Expr.TopLevel ⟨rest, range⟩)
          (state.error node.range err) ∧
    Expr.typecheck files (depth + 2) (Expr.List ⟨Expr.Import node :: rest, range⟩) state
      = Expr.typecheck files (depth + 2) (Expr.List ⟨rest, range⟩)
          (state.error node.range err) := by
  have himp : ∀ d, Expr.typecheck files (d + 1) (Expr.Import node) state
      = some (Ty.void, state.error node.range err) := by
    intro d
    simp [Expr.typecheck, ImportExpr.typecheck, hload]
  refine ⟨himp depth, ?_, ?_⟩
  · have h1 := himp depth
    simp only [Expr.typecheck, AST.typecheck, typecheckEach] at h1 ⊢
    rw [h1]
  · have h1 := himp depth
    simp only [Expr.typecheck, ListExpr.typecheck, typecheckEach] at h1 ⊢
    rw [h1]

/-- C17 as amended, at `import * from "a"; export return;` with no file to
load. -/
theorem typecheck_after_load_failure_witness :
    Expr.typecheck Files.missing (0 + 1) (Expr.Import ⟨"a", [], (0, 4)⟩)
        (UnitParser.sample [⟨none, true, []⟩])
      = some (Ty.void,
          (UnitParser.sample [⟨none, true, []⟩]).error (0, 4) "cannot open lib/a") ∧
    Expr.typecheck Files.missing (0 + 2)
        (Expr.TopLevel
          ⟨[Expr.Import ⟨"a", [], (0, 4)⟩,
            Expr.Export ⟨Expr.Return ⟨none, none, (6, 7)⟩, (5, 7)⟩], (0, 8)⟩)
        (UnitParser.sample [⟨none, true, []⟩])
      = Expr.typecheck Files.missing (0 + 2)
          (Expr.TopLevel ⟨[Expr.Export ⟨Expr.Return ⟨none, none, (6, 7)⟩, (5, 7)⟩], (0, 8)⟩)
          ((UnitParser.sample [⟨none, true, []⟩]).error (0, 4) "cannot open lib/a") ∧
    Expr.typecheck Files.missing (0 + 2)
        (Expr.List
          ⟨[Expr.Import ⟨"a", [], (0, 4)⟩,
            Expr.Export ⟨Expr.Return ⟨none, none, (6, 7)⟩, (5, 7)⟩], (0, 8)⟩)
        (UnitParser.sample [⟨none, true, []⟩])
      = Expr.typecheck Files.missing (0 + 2)
          (Expr.List ⟨[Expr.Export ⟨Expr.Return ⟨none, none, (6, 7)⟩, (5, 7)⟩], (0, 8)⟩)
          ((UnitParser.sample [⟨none, true, []⟩]).error (0, 4) "cannot open lib/a") :=
  typecheck_after_load_failure Files.missing 0 ⟨"a", [], (0, 4)⟩
    [Expr.Export ⟨Expr.Return ⟨none, none, (6, 7)⟩, (5, 7)⟩] (0, 8)
    (UnitParser.sample [⟨none, true, []⟩]) "cannot open lib/a" rfl

/-! ## Termination of the typecheck pass -/

theorem Expr.typecheck_selfImport (depth : Nat) :
    ∀ state : UnitParser,
      Expr.typecheck Files.selfImport depth (Expr.Import ⟨"a", [], (0, 4)⟩) state = none := by
  induction depth with
  | zero => intro state; rfl
  | succ depth ih =>
    intro state
    have hsrc : ∀ path, Files.selfImport.srcFrom path
        = .ok ⟨"lib", ⟨[Expr.Import ⟨"a", [], (0, 4)⟩], (0, 5)⟩⟩ := fun _ => rfl
    have hparse : ∀ log,
        UnitParser.parse (fun e s => Expr.typecheck Files.selfImport depth e s) log
          ⟨"lib", ⟨[Expr.Import ⟨"a", [], (0, 4)⟩], (0, 5)⟩⟩ = none := by
      intro log
      simp [UnitParser.parse, AST.typecheck, typecheckEach, ih]
    simp only [Expr.typecheck, ImportExpr.typecheck, hsrc, hparse]

/-- C18 fails as stated: the file `a` is `import * from "a";`, it imports
itself.  The target loads, and typechecking the unit returns at no call depth:
every import re-enters `UnitParser::parse` on the same file. -/
theorem typecheck_self_import_diverges :
    (∀ path, ∃ src, Files.selfImport.srcFrom path = .ok src ∧
      src.ast.exprs.length = 1) ∧
    ¬ ∃ depth r,
      Expr.typecheck Files.selfImport depth
          (Expr.TopLevel ⟨[Expr.Import ⟨"a", [], (0, 4)⟩], (0, 5)⟩)
          (UnitParser.sample [⟨none, true, []⟩]) = some r := by
  refine ⟨fun _ => ⟨_, rfl, rfl⟩, ?_⟩
  rintro ⟨depth, r, h⟩
  cases depth with
  | zero => simp [Expr.typecheck] at h
  | succ depth =>
    simp [Expr.typecheck, AST.typecheck, typecheckEach, Expr.typecheck_selfImport] at h

/-! ## Termination of the typecheck pass: import chains -/

theorem ImportExpr.searchDir_pushImported (range : Range) (s : UnitParser) (ty : Ty) :
    (ImportExpr.pushImported range s ty).searchDir = s.searchDir := by
  unfold ImportExpr.pushImported
  split
  · split
    · rfl
    · unfold UnitParser.pushType
      split <;> rfl
  · rfl

theorem ImportExpr.searchDir_foldl (range : Range) (imported : List Ty) :
    ∀ s : UnitParser,
      (imported.foldl (ImportExpr.pushImported range) s).searchDir = s.searchDir := by
  induction imported with
  | nil => intro s; rfl
  | cons t rest ih =>
    intro s
    simp only [List.foldl_cons]
    rw [ih, ImportExpr.searchDir_pushImported]

theorem ImportExpr.searchDir_typecheck_import {S : Type} (env : Loader S) (self : ImportExpr)
    (state : UnitParser) (ty : Ty) (s2 : UnitParser)
    (h : ImportExpr.typecheck env self state = some (ty, s2)) :
    s2.searchDir = state.searchDir := by
  rcases hsrc : env.srcFrom (env.resolve state.searchDir self.from_) with err | src
  · simp only [ImportExpr.typecheck, hsrc, Option.some.injEq, Prod.mk.injEq] at h
    rw [← h.2]
    rfl
  · rcases hparse : env.parse state.errors src with _ | ⟨parsed, log⟩
    · simp [ImportExpr.typecheck, hsrc, hparse] at h
    · rw [ImportExpr.typecheck_loaded env self state src parsed log hsrc hparse] at h
      simp only [Option.some.injEq, Prod.mk.injEq] at h
      rw [← h.2, ImportExpr.searchDir_foldl]

theorem typecheckEach_searchDir {E : Type} (Expr_typecheck : Typecheck E) (exprs : List E)
    (hchildren : ∀ e ∈ exprs, ∀ s t s2, Expr_typecheck e s = some (t, s2) →
      s2.searchDir = s.searchDir) :
    ∀ s s2, typecheckEach Expr_typecheck exprs s = some s2 → s2.searchDir = s.searchDir := by
  induction exprs with
  | nil =>
    intro s s2 h
    simp only [typecheckEach, Option.some.injEq] at h
    rw [← h]
  | cons e rest ih =>
    intro s s2 h
    rcases he : Expr_typecheck e s with _ | ⟨t, s1⟩
    · simp [typecheckEach, he] at h
    · simp only [typecheckEach, he] at h
      rw [ih (fun e' he' => hchildren e' (List.mem_cons_of_mem _ he')) s1 s2 h]
      exact hchildren e (List.mem_cons_self _ _) s t s1 he

/-- No node of the tree changes the search directory of the unit. -/
theorem Expr.searchDir_typecheck_tree (files : Files) :
    ∀ (depth : Nat) (e : Expr) (s : UnitParser) (t : Ty) (s2 : UnitParser),
      Expr.typecheck files depth e s = some (t, s2) → s2.searchDir = s.searchDir := by
  intro depth
  induction depth with
  | zero => intro e s t s2 h; simp [Expr.typecheck] at h
  | succ depth ih =>
    intro e s t s2 h
    cases e with
    | Attr node =>
      have h2 : AttrExpr.typecheck (fun e s => Expr.typecheck files depth e s) node s
          = some (t, s2) := h
      unfold AttrExpr.typecheck at h2
      rcases hv : node.value with _ | v
      · simp only [hv, Option.some.injEq, Prod.mk.injEq] at h2
        rw [← h2.2]
      · rcases he : Expr.typecheck files depth v s with _ | ⟨t1, s1⟩
        · simp [hv, he] at h2
        · simp only [hv, he, Option.some.injEq, Prod.mk.injEq] at h2
          rw [← h2.2]
          exact ih v s t1 s1 he
    | Export node =>
      have h2 : ExportExpr.typecheck (fun e s => Expr.typecheck files depth e s) node s
          = some (t, s2) := h
      rcases he : Expr.typecheck files depth node.expr s with _ | ⟨t1, s1⟩
      · simp [ExportExpr.typecheck, he] at h2
      · simp only [ExportExpr.typecheck, he, Option.some.injEq, Prod.mk.injEq] at h2
        rw [← h2.2, ← ih node.expr s t1 s1 he]
        simp only [UnitParser.addExportedType]
        split <;> split <;> rfl
    | Import node =>
      exact ImportExpr.searchDir_typecheck_import _ node s t s2 h
    | List node =>
      have h2 : ListExpr.typecheck (fun e s => Expr.typecheck files depth e s) node s
          = some (t, s2) := h
      unfold ListExpr.typecheck at h2
      rcases hl : typecheckEach (fun e s => Expr.typecheck files depth e s) node.exprs s
        with _ | s1
      · simp [hl] at h2
      · simp only [hl, Option.some.injEq, Prod.mk.injEq] at h2
        rw [← h2.2]
        exact typecheckEach_searchDir _ node.exprs (fun e _ => ih e) s s1 hl
    | Return node =>
      have h2 : ReturnExpr.typecheck (fun e s => Expr.typecheck files depth e s) node s
          = some (t, s2) := h
      unfold ReturnExpr.typecheck at h2
      rcases hv : node.expr with _ | v
      · simp only [hv, Option.some.injEq, Prod.mk.injEq] at h2
        rw [← h2.2]
      · simp only [hv] at h2
        exact ih v s t s2 h2
    | Block node =>
      have h2 : BlockExpr.typecheck (fun e s => Expr.typecheck files depth e s) node s
          = some (t, s2) := h
      unfold BlockExpr.typecheck ListExpr.typecheck at h2
      rcases hl : typecheckEach (fun e s => Expr.typecheck files depth e s) node.expr.exprs
        (s.pushScope none false) with _ | s1
      · simp [hl] at h2
      · simp only [hl, Option.some.injEq, Prod.mk.injEq] at h2
        rw [← h2.2]
        exact typecheckEach_searchDir _ node.expr.exprs (fun e _ => ih e)
          (s.pushScope none false) s1 hl
    | TopLevel node =>
      have h2 : AST.typecheck (fun e s => Expr.typecheck files depth e s) node s
          = some (t, s2) := h
      unfold AST.typecheck at h2
      rcases hl : typecheckEach (fun e s => Expr.typecheck files depth e s) node.exprs s
        with _ | s1
      · simp [hl] at h2
      · simp only [hl, Option.some.injEq, Prod.mk.injEq] at h2
        rw [← h2.2]
        exact typecheckEach_searchDir _ node.exprs (fun e _ => ih e) s s1 hl

theorem typecheckEach_mono {E : Type} (tc1 tc2 : Typecheck E) (exprs : List E)
    (hle : ∀ e ∈ exprs, ∀ s r, tc1 e s = some r → tc2 e s = some r) :
    ∀ s s2, typecheckEach tc1 exprs s = some s2 → typecheckEach tc2 exprs s = some s2 := by
  induction exprs with
  | nil => intro s s2 h; exact h
  | cons e rest ih =>
    intro s s2 h
    rcases he : tc1 e s with _ | ⟨t, s1⟩
    · simp [typecheckEach, he] at h
    · simp only [typecheckEach, he] at h
      simp only [typecheckEach, hle e (List.mem_cons_self _ _) s _ he]
      exact ih (fun e' he' => hle e' (List.mem_cons_of_mem _ he')) s1 s2 h

theorem UnitParser.parse_mono (tc1 tc2 : Typecheck Expr)
    (hle : ∀ e s r, tc1 e s = some r → tc2 e s = some r)
    (log : List Diagnostic) (src : SrcFile) (r : ParsedSrc × List Diagnostic)
    (h : UnitParser.parse tc1 log src = some r) : UnitParser.parse tc2 log src = some r := by
  unfold UnitParser.parse AST.typecheck at h ⊢
  rcases hl : typecheckEach tc1 src.ast.exprs ⟨src.searchDir, ⟨[]⟩, [⟨none, true, []⟩], log⟩
    with _ | s1
  · simp [hl] at h
  · rw [typecheckEach_mono tc1 tc2 _ (fun e _ => hle e) _ s1 hl]
    simpa [hl] using h

/-- A call that returns within a depth returns the same within any larger
depth. -/
theorem Expr.typecheck_mono_succ (files : Files) :
    ∀ (depth : Nat) (e : Expr) (s : UnitParser) (r : Ty × UnitParser),
      Expr.typecheck files depth e s = some r →
      Expr.typecheck files (depth + 1) e s = some r := by
  intro depth
  induction depth with
  | zero => intro e s r h; simp [Expr.typecheck] at h
  | succ depth ih =>
    intro e s r h
    cases e with
    | Attr node =>
      have h2 : AttrExpr.typecheck (fun e s => Expr.typecheck files depth e s) node s
          = some r := h
      show AttrExpr.typecheck (fun e s => Expr.typecheck files (depth + 1) e s) node s = some r
      unfold AttrExpr.typecheck at h2 ⊢
      rcases hv : node.value with _ | v
      · simpa [hv] using h2
      · rcases he : Expr.typecheck files depth v s with _ | ⟨t1, s1⟩
        · simp [hv, he] at h2
        · simp only [hv, he] at h2
          simp only [ih v s _ he]
          exact h2
    | Export node =>
      have h2 : ExportExpr.typecheck (fun e s => Expr.typecheck files depth e s) node s
          = some r := h
      show ExportExpr.typecheck (fun e s => Expr.typecheck files (depth + 1) e s) node s
        = some r
      rcases he : Expr.typecheck files depth node.expr s with _ | ⟨t1, s1⟩
      · simp [ExportExpr.typecheck, he] at h2
      · rw [ExportExpr.typecheck_eq _ node s t1 s1 he] at h2
        rw [ExportExpr.typecheck_eq _ node s t1 s1 (ih node.expr s _ he)]
        exact h2
    | Import node =>
      have h2 : ImportExpr.typecheck
          ⟨files.resolve, files.srcFrom,
            fun log src => UnitParser.parse (fun e s => Expr.typecheck files depth e s) log src⟩
          node s = some r := h
      show ImportExpr.typecheck
          ⟨files.resolve, files.srcFrom,
            fun log src =>
              UnitParser.parse (fun e s => Expr.typecheck files (depth + 1) e s) log src⟩
          node s = some r
      unfold ImportExpr.typecheck at h2 ⊢
      rcases hsrc : files.srcFrom (files.resolve s.searchDir node.from_) with err | src
      · simpa [hsrc] using h2
      · simp only [hsrc] at h2 ⊢
        rcases hp : UnitParser.parse (fun e s => Expr.typecheck files depth e s) s.errors src
          with _ | ⟨parsed, log⟩
        · simp [hp] at h2
        · rw [UnitParser.parse_mono _ (fun e s => Expr.typecheck files (depth + 1) e s)
            (fun e s r h => ih e s r h) _ _ _ hp]
          simpa [hp] using h2
    | List node =>
      have h2 : ListExpr.typecheck (fun e s => Expr.typecheck files depth e s) node s
          = some r := h
      show ListExpr.typecheck (fun e s => Expr.typecheck files (depth + 1) e s) node s = some r
      unfold ListExpr.typecheck at h2 ⊢
      rcases hl : typecheckEach (fun e s => Expr.typecheck files depth e s) node.exprs s
        with _ | s1
      · simp [hl] at h2
      · rw [typecheckEach_mono _ (fun e s => Expr.typecheck files (depth + 1) e s) _
          (fun e _ s r h => ih e s r h) _ s1 hl]
        simpa [hl] using h2
    | Return node =>
      have h2 : ReturnExpr.typecheck (fun e s => Expr.typecheck files depth e s) node s
          = some r := h
      show ReturnExpr.typecheck (fun e s => Expr.typecheck files (depth + 1) e s) node s
        = some r
      unfold ReturnExpr.typecheck at h2 ⊢
      rcases hv : node.expr with _ | v
      · simpa [hv] using h2
      · simp only [hv] at h2 ⊢
        exact ih v s r h2
    | Block node =>
      have h2 : BlockExpr.typecheck (fun e s => Expr.typecheck files depth e s) node s
          = some r := h
      show BlockExpr.typecheck (fun e s => Expr.typecheck files (depth + 1) e s) node s
        = some r
      unfold BlockExpr.typecheck ListExpr.typecheck at h2 ⊢
      rcases hl : typecheckEach (fun e s => Expr.typecheck files depth e s) node.expr.exprs
        (s.pushScope none false) with _ | s1
      · simp [hl] at h2
      · rw [typecheckEach_mono _ (fun e s => Expr.typecheck files (depth + 1) e s) _
          (fun e _ s r h => ih e s r h) _ s1 hl]
        simpa [hl] using h2
    | TopLevel node =>
      have h2 : AST.typecheck (fun e s => Expr.typecheck files depth e s) node s
          = some r := h
      show AST.typecheck (fun e s => Expr.typecheck files (depth + 1) e s) node s = some r
      unfold AST.typecheck at h2 ⊢
      rcases hl : typecheckEach (fun e s => Expr.typecheck files depth e s) node.exprs s
        with _ | s1
      · simp [hl] at h2
      · rw [typecheckEach_mono _ (fun e s => Expr.typecheck files (depth + 1) e s) _
          (fun e _ s r h => ih e s r h) _ s1 hl]
        simpa [hl] using h2

theorem Expr.typecheck_mono (files : Files) (d1 d2 : Nat) (hle : d1 ≤ d2) (e : Expr)
    (s : UnitParser) (r : Ty × UnitParser) (h : Expr.typecheck files d1 e s = some r) :
    Expr.typecheck files d2 e s = some r := by
  induction d2, hle using Nat.le_induction with
  | base => exact h
  | succ d _ ih => exact Expr.typecheck_mono_succ files d e s r ih

theorem typecheckEach_returns (files : Files) (dir : String) (exprs : List Expr)
    (h : ∀ e ∈ exprs, ∀ s : UnitParser, s.searchDir = dir →
      ∃ d r, Expr.typecheck files d e s = some r) :
    ∀ s : UnitParser, s.searchDir = dir →
      ∃ d s2, typecheckEach (fun e s => Expr.typecheck files d e s) exprs s = some s2 := by
  induction exprs with
  | nil => intro s _; exact ⟨0, s, rfl⟩
  | cons e rest ih =>
    intro s hs
    obtain ⟨d1, ⟨t, s1⟩, h1⟩ := h e (List.mem_cons_self _ _) s hs
    have hs1 : s1.searchDir = dir := by
      rw [Expr.searchDir_typecheck_tree files d1 e s t s1 h1, hs]
    obtain ⟨d2, s2, h2⟩ := ih (fun e' he' => h e' (List.mem_cons_of_mem _ he')) s1 hs1
    refine ⟨max d1 d2, s2, ?_⟩
    simp only [typecheckEach,
      Expr.typecheck_mono files d1 (max d1 d2) (Nat.le_max_left _ _) e s _ h1]
    exact typecheckEach_mono _ _ rest
      (fun e' _ s' r hr =>
        Expr.typecheck_mono files d2 (max d1 d2) (Nat.le_max_right _ _) e' s' r hr) s1 s2 h2

/-- A tree returns when `UnitParser::parse` returns on every file that
an import node of the tree loads. -/
theorem Expr.typecheck_returns_of_imports (files : Files) (dir : String) :
    ∀ (k : Nat) (e : Expr), sizeOf e ≤ k →
      (∀ n, Expr.HasImport e n → ∀ G, files.srcFrom (files.resolve dir n.from_) = .ok G →
        ∀ log, ∃ d r,
          UnitParser.parse (fun e s => Expr.typecheck files d e s) log G = some r) →
      ∀ s : UnitParser, s.searchDir = dir → ∃ d r, Expr.typecheck files d e s = some r := by
  intro k
  induction k with
  | zero =>
    intro e h
    have hpos : 0 < sizeOf e := by cases e <;> simp
    omega
  | succ k ih =>
    intro e h himp s hs
    cases e with
    | Attr node =>
      obtain ⟨attr, value, range⟩ := node
      cases value with
      | none => exact ⟨1, (Ty.void, s), by simp [Expr.typecheck, AttrExpr.typecheck]⟩
      | some v =>
        obtain ⟨d, ⟨t, s1⟩, hd⟩ := ih v (by simp at h; omega)
          (fun n hn => himp n (Expr.HasImport.attr _ v n rfl hn)) s hs
        refine ⟨d + 1, (Ty.void, s1), ?_⟩
        show AttrExpr.typecheck (fun e s => Expr.typecheck files d e s) ⟨attr, some v, range⟩ s
          = _
        simp [AttrExpr.typecheck, hd]
    | Export node =>
      obtain ⟨inner, range⟩ := node
      obtain ⟨d, ⟨t, s1⟩, hd⟩ := ih inner (by simp at h; omega)
        (fun n hn => himp n (Expr.HasImport.exported _ n hn)) s hs
      exact ⟨d + 1, _,
        ExportExpr.typecheck_eq (fun e s => Expr.typecheck files d e s) ⟨inner, range⟩ s t s1 hd⟩
    | Import node =>
      rcases hsrc : files.srcFrom (files.resolve s.searchDir node.from_) with err | G
      · exact ⟨1, (Ty.void, s.error node.range err), by
          simp [Expr.typecheck, ImportExpr.typecheck, hsrc]⟩
      · obtain ⟨d, ⟨parsed, log⟩, hp⟩ :=
          himp node (Expr.HasImport.here node) G (by rw [← hs]; exact hsrc) s.errors
        exact ⟨d + 1, _,
          ImportExpr.typecheck_loaded
            ⟨files.resolve, files.srcFrom,
              fun log src => UnitParser.parse (fun e s => Expr.typecheck files d e s) log src⟩
            node s G parsed log hsrc hp⟩
    | List node =>
      obtain ⟨exprs, range⟩ := node
      obtain ⟨d, s2, hd⟩ := typecheckEach_returns files dir exprs
        (fun e he s hs => ih e (by
            have := List.sizeOf_lt_of_mem he
            simp at h; omega)
          (fun n hn => himp n (Expr.HasImport.list _ e n he hn)) s hs) s hs
      refine ⟨d + 1, (Ty.void, s2), ?_⟩
      show ListExpr.typecheck (fun e s => Expr.typecheck files d e s) ⟨exprs, range⟩ s = _
      simp [ListExpr.typecheck, hd]
    | Return node =>
      obtain ⟨value, label, range⟩ := node
      cases value with
      | none => exact ⟨1, (Ty.void, s), by simp [Expr.typecheck, ReturnExpr.typecheck]⟩
      | some v =>
        obtain ⟨d, r, hd⟩ := ih v (by simp at h; omega)
          (fun n hn => himp n (Expr.HasImport.returned _ v n rfl hn)) s hs
        refine ⟨d + 1, r, ?_⟩
        show ReturnExpr.typecheck (fun e s => Expr.typecheck files d e s)
          ⟨some v, label, range⟩ s = _
        simpa [ReturnExpr.typecheck] using hd
    | Block node =>
      obtain ⟨⟨exprs, range1⟩, range⟩ := node
      obtain ⟨d, s2, hd⟩ := typecheckEach_returns files dir exprs
        (fun e he s hs => ih e (by
            have := List.sizeOf_lt_of_mem he
            simp at h; omega)
          (fun n hn => himp n (Expr.HasImport.block _ e n he hn)) s hs)
        (s.pushScope none false) hs
      refine ⟨d + 1, (Ty.void, s2.popScope), ?_⟩
      show BlockExpr.typecheck (fun e s => Expr.typecheck files d e s)
        ⟨⟨exprs, range1⟩, range⟩ s = _
      simp [BlockExpr.typecheck, ListExpr.typecheck, hd]
    | TopLevel node =>
      obtain ⟨exprs, range⟩ := node
      obtain ⟨d, s2, hd⟩ := typecheckEach_returns files dir exprs
        (fun e he s hs => ih e (by
            have := List.sizeOf_lt_of_mem he
            simp at h; omega)
          (fun n hn => himp n (Expr.HasImport.topLevel _ e n he hn)) s hs) s hs
      refine ⟨d + 1, (Ty.void, s2), ?_⟩
      show AST.typecheck (fun e s => Expr.typecheck files d e s) ⟨exprs, range⟩ s = _
      simp [AST.typecheck, hd]

/-- `UnitParser::parse` returns on a file from which no infinite chain of
imports starts. -/
theorem UnitParser.parse_returns_of_acc (files : Files) (F : SrcFile)
    (h : Acc files.importedBy F) :
    ∀ log, ∃ d r,
      UnitParser.parse (fun e s => Expr.typecheck files d e s) log F = some r := by
  induction h with
  | intro F _ ih =>
    intro log
    obtain ⟨d, s2, hd⟩ := typecheckEach_returns files F.searchDir F.ast.exprs
      (fun e he s hs =>
        Expr.typecheck_returns_of_imports files F.searchDir (sizeOf e) e (Nat.le_refl _)
          (fun n hn G hG log => ih G ⟨e, he, n, hn, hG⟩ log) s hs)
      ⟨F.searchDir, ⟨[]⟩, [⟨none, true, []⟩], log⟩ rfl
    exact ⟨d, (s2.parsed, s2.errors), by simp [UnitParser.parse, AST.typecheck, hd]⟩

theorem typecheckEach_reached {E : Type} (Expr_typecheck : Typecheck E) (exprs : List E)
    (hpres : ∀ e ∈ exprs, ∀ s t s2, Expr_typecheck e s = some (t, s2) →
      s2.searchDir = s.searchDir)
    (e : E) (he : e ∈ exprs) :
    ∀ s s2, typecheckEach Expr_typecheck exprs s = some s2 →
      ∃ s1 r, s1.searchDir = s.searchDir ∧ Expr_typecheck e s1 = some r := by
  induction exprs with
  | nil => cases he
  | cons x rest ih =>
    intro s s2 h
    rcases hx : Expr_typecheck x s with _ | ⟨t, s1⟩
    · simp [typecheckEach, hx] at h
    · simp only [typecheckEach, hx] at h
      rcases List.mem_cons.mp he with rfl | hmem
      · exact ⟨s, (t, s1), rfl, hx⟩
      · obtain ⟨s3, r, hs3, hr⟩ :=
          ih (fun e' he' => hpres e' (List.mem_cons_of_mem _ he')) hmem s1 s2 h
        exact ⟨s3, r, by rw [hs3, hpres x (List.mem_cons_self _ _) s t s1 hx], hr⟩

/-- A call that returns on a tree has made, and seen return, the call on
every import node of the tree, in the same search directory. -/
theorem Expr.HasImport.reached (files : Files) {e : Expr} {n : ImportExpr}
    (h : Expr.HasImport e n) :
    ∀ (d : Nat) (s : UnitParser) (r : Ty × UnitParser),
      Expr.typecheck files d e s = some r →
      ∃ d2 s2 r2, d2 ≤ d ∧ s2.searchDir = s.searchDir ∧
        Expr.typecheck files d2 (Expr.Import n) s2 = some r2 := by
  induction h with
  | here n => intro d s r hr; exact ⟨d, s, r, Nat.le_refl _, rfl, hr⟩
  | attr node v n hv _ ih =>
    intro d s r hr
    cases d with
    | zero => simp [Expr.typecheck] at hr
    | succ d =>
      have h2 : AttrExpr.typecheck (fun e s => Expr.typecheck files d e s) node s
          = some r := hr
      unfold AttrExpr.typecheck at h2
      rcases he : Expr.typecheck files d v s with _ | r1
      · simp [hv, he] at h2
      · obtain ⟨d2, s2, r2, hle, hsd, h3⟩ := ih d s r1 he
        exact ⟨d2, s2, r2, by omega, hsd, h3⟩
  | exported node n _ ih =>
    intro d s r hr
    cases d with
    | zero => simp [Expr.typecheck] at hr
    | succ d =>
      have h2 : ExportExpr.typecheck (fun e s => Expr.typecheck files d e s) node s
          = some r := hr
      rcases he : Expr.typecheck files d node.expr s with _ | r1
      · simp [ExportExpr.typecheck, he] at h2
      · obtain ⟨d2, s2, r2, hle, hsd, h3⟩ := ih d s r1 he
        exact ⟨d2, s2, r2, by omega, hsd, h3⟩
  | list node e n hmem _ ih =>
    intro d s r hr
    cases d with
    | zero => simp [Expr.typecheck] at hr
    | succ d =>
      have h2 : ListExpr.typecheck (fun e s => Expr.typecheck files d e s) node s
          = some r := hr
      unfold ListExpr.typecheck at h2
      rcases hl : typecheckEach (fun e s => Expr.typecheck files d e s) node.exprs s
        with _ | s1
      · simp [hl] at h2
      · obtain ⟨s3, r3, hs3, hr3⟩ := typecheckEach_reached _ node.exprs
          (fun e _ => Expr.searchDir_typecheck_tree files d e) e hmem s s1 hl
        obtain ⟨d2, s2, r2, hle, hsd, h3⟩ := ih d s3 r3 hr3
        exact ⟨d2, s2, r2, by omega, by rw [hsd, hs3], h3⟩
  | returned node v n hv _ ih =>
    intro d s r hr
    cases d with
    | zero => simp [Expr.typecheck] at hr
    | succ d =>
      have h2 : ReturnExpr.typecheck (fun e s => Expr.typecheck files d e s) node s
          = some r := hr
      unfold ReturnExpr.typecheck at h2
      simp only [hv] at h2
      obtain ⟨d2, s2, r2, hle, hsd, h3⟩ := ih d s r h2
      exact ⟨d2, s2, r2, by omega, hsd, h3⟩
  | block node e n hmem _ ih =>
    intro d s r hr
    cases d with
    | zero => simp [Expr.typecheck] at hr
    | succ d =>
      have h2 : BlockExpr.typecheck (fun e s => Expr.typecheck files d e s) node s
          = some r := hr
      unfold BlockExpr.typecheck ListExpr.typecheck at h2
      rcases hl : typecheckEach (fun e s => Expr.typecheck files d e s) node.expr.exprs
        (s.pushScope none false) with _ | s1
      · simp [hl] at h2
      · obtain ⟨s3, r3, hs3, hr3⟩ := typecheckEach_reached _ node.expr.exprs
          (fun e _ => Expr.searchDir_typecheck_tree files d e) e hmem
          (s.pushScope none false) s1 hl
        obtain ⟨d2, s2, r2, hle, hsd, h3⟩ := ih d s3 r3 hr3
        exact ⟨d2, s2, r2, by omega, by rw [hsd, hs3]; rfl, h3⟩
  | topLevel node e n hmem _ ih =>
    intro d s r hr
    cases d with
    | zero => simp [Expr.typecheck] at hr
    | succ d =>
      have h2 : AST.typecheck (fun e s => Expr.typecheck files d e s) node s
          = some r := hr
      unfold AST.typecheck at h2
      rcases hl : typecheckEach (fun e s => Expr.typecheck files d e s) node.exprs s
        with _ | s1
      · simp [hl] at h2
      · obtain ⟨s3, r3, hs3, hr3⟩ := typecheckEach_reached _ node.exprs
          (fun e _ => Expr.searchDir_typecheck_tree files d e) e hmem s s1 hl
        obtain ⟨d2, s2, r2, hle, hsd, h3⟩ := ih d s3 r3 hr3
        exact ⟨d2, s2, r2, by omega, by rw [hsd, hs3], h3⟩

/-- An import that returns on a file that loads has seen `UnitParser::parse`
return on that file, one call deeper. -/
theorem Expr.parse_returns_of_import (files : Files) (d : Nat) (n : ImportExpr)
    (s : UnitParser) (r : Ty × UnitParser) (G : SrcFile)
    (h : Expr.typecheck files d (Expr.Import n) s = some r)
    (hG : files.srcFrom (files.resolve s.searchDir n.from_) = .ok G) :
    ∃ d2 r2, d2 < d ∧
      UnitParser.parse (fun e s => Expr.typecheck files d2 e s) s.errors G = some r2 := by
  cases d with
  | zero => simp [Expr.typecheck] at h
  | succ d =>
    have h2 : ImportExpr.typecheck
        ⟨files.resolve, files.srcFrom,
          fun log src => UnitParser.parse (fun e s => Expr.typecheck files d e s) log src⟩
        n s = some r := h
    unfold ImportExpr.typecheck at h2
    simp only [hG] at h2
    rcases hp : UnitParser.parse (fun e s => Expr.typecheck files d e s) s.errors G
      with _ | r2
    · simp [hp] at h2
    · exact ⟨d, r2, Nat.lt_succ_self d, hp⟩

/-- From a file on which `UnitParser::parse` returns no infinite chain of
imports starts. -/
theorem UnitParser.acc_of_parse_returns (files : Files) :
    ∀ (d : Nat) (F : SrcFile) (log : List Diagnostic) (r : ParsedSrc × List Diagnostic),
      UnitParser.parse (fun e s => Expr.typecheck files d e s) log F = some r →
      Acc files.importedBy F := by
  intro d
  induction d using Nat.strong_induction_on with
  | _ d ih =>
    intro F log r h
    refine Acc.intro F ?_
    rintro G ⟨e, he, n, hn, hG⟩
    unfold UnitParser.parse AST.typecheck at h
    rcases hl : typecheckEach (fun e s => Expr.typecheck files d e s) F.ast.exprs
      ⟨F.searchDir, ⟨[]⟩, [⟨none, true, []⟩], log⟩ with _ | s1
    · simp [hl] at h
    · obtain ⟨s3, r3, hs3, hr3⟩ := typecheckEach_reached _ F.ast.exprs
        (fun e _ => Expr.searchDir_typecheck_tree files d e) e he _ s1 hl
      obtain ⟨d2, s2, r2, hle, hsd, h3⟩ := hn.reached files d s3 r3 hr3
      have hdir : s2.searchDir = F.searchDir := by rw [hsd, hs3]
      obtain ⟨d3, r4, hlt, hp⟩ :=
        Expr.parse_returns_of_import files d2 n s2 r2 G h3 (by rw [hdir]; exact hG)
      exact ih d3 (by omega) G _ r4 hp

/-- A file on an import cycle starts an infinite chain of imports. -/
theorem Files.not_acc_of_cycle (files : Files) (G : SrcFile)
    (h : Relation.TransGen files.importedBy G G) : ¬ Acc files.importedBy G := by
  intro hacc
  induction hacc with
  | intro x _ ih =>
    obtain ⟨y, hxy, hyx⟩ := Relation.TransGen.tail'_iff.mp h
    exact ih y hyx (Relation.TransGen.head' hyx hxy)

theorem Files.chain_loads (p : String) (G : SrcFile)
    (h : Files.chain.srcFrom p = .ok G) :
    G = SrcFile.importsB ∨ G = SrcFile.returns := by
  simp only [Files.chain] at h
  split at h
  · left; exact (Except.ok.inj h).symm
  · split at h
    · right; exact (Except.ok.inj h).symm
    · cases h

theorem Files.chain_acc_returns : Acc Files.chain.importedBy SrcFile.returns := by
  refine Acc.intro _ ?_
  rintro G ⟨e, he, n, hn, _⟩
  simp only [SrcFile.returns, List.mem_singleton] at he
  subst he
  cases hn with
  | returned node v n hv _ => cases hv

theorem Files.chain_acc_importsB : Acc Files.chain.importedBy SrcFile.importsB := by
  refine Acc.intro _ ?_
  rintro G ⟨e, he, n, hn, hG⟩
  simp only [SrcFile.importsB, List.mem_singleton] at he
  subst he
  cases hn with
  | here n =>
    have hb : Files.chain.srcFrom (Files.chain.resolve "lib" "b") = .ok SrcFile.returns := rfl
    have hG2 : Files.chain.srcFrom (Files.chain.resolve "lib" "b") = .ok G := hG
    rw [hb] at hG2
    rw [← Except.ok.inj hG2]
    exact Files.chain_acc_returns

theorem Files.chain_wellFounded : WellFounded Files.chain.importedBy := by
  refine ⟨fun F => Acc.intro F ?_⟩
  rintro G ⟨e, _, n, _, hG⟩
  rcases Files.chain_loads _ G hG with rfl | rfl
  · exact Files.chain_acc_importsB
  · exact Files.chain_acc_returns

theorem Files.selfImport_cycle :
    Relation.TransGen Files.selfImport.importedBy
      ⟨"lib", ⟨[Expr.Import ⟨"a", [], (0, 4)⟩], (0, 5)⟩⟩
      ⟨"lib", ⟨[Expr.Import ⟨"a", [], (0, 4)⟩], (0, 5)⟩⟩ :=
  Relation.TransGen.single
    ⟨Expr.Import ⟨"a", [], (0, 4)⟩, List.mem_singleton.mpr rfl, ⟨"a", [], (0, 4)⟩,
      Expr.HasImport.here _, rfl⟩

/-- C18 as amended: `typecheck` returns exactly when no import it meets
starts an infinite chain of imports.  For every set of source files, every
tree of the node variants and every state: `typecheck` returns a type (at
some call depth) if and only if every file that an import node of the tree
loads is accessible for the import relation between files, that is, no
infinite chain of imports starts from it (first part).  Hence on source
files whose import relation is well-founded (among finitely many files: has
no cycle) `typecheck` returns, with one type and one state at every call
depth from some depth on (second part); and when an import node of the tree
loads a file that imports itself again, directly or through a chain of
imports, `typecheck` returns at no call depth (third part). -/
theorem typecheck_returns_iff_imports_acc (files : Files) (e : Expr) (state : UnitParser) :
    ((∃ depth ty s2, Expr.typecheck files depth e state = some (ty, s2)) ↔
      ∀ n, Expr.HasImport e n → ∀ G,
        files.srcFrom (files.resolve state.searchDir n.from_) = .ok G →
        Acc files.importedBy G) ∧
    (WellFounded files.importedBy →
      ∃ d0 ty s2, ∀ depth, d0 ≤ depth →
        Expr.typecheck files depth e state = some (ty, s2)) ∧
    (∀ n G, Expr.HasImport e n →
      files.srcFrom (files.resolve state.searchDir n.from_) = .ok G →
      Relation.TransGen files.importedBy G G →
      ∀ depth, Expr.typecheck files depth e state = none) := by
  have hback : (∀ n, Expr.HasImport e n → ∀ G,
      files.srcFrom (files.resolve state.searchDir n.from_) = .ok G →
      Acc files.importedBy G) → ∃ d r, Expr.typecheck files d e state = some r :=
    fun hacc =>
      Expr.typecheck_returns_of_imports files state.searchDir (sizeOf e) e (Nat.le_refl _)
        (fun n hn G hG log => UnitParser.parse_returns_of_acc files G (hacc n hn G hG) log)
        state rfl
  have hforth : ∀ depth r, Expr.typecheck files depth e state = some r →
      ∀ n, Expr.HasImport e n → ∀ G,
        files.srcFrom (files.resolve state.searchDir n.from_) = .ok G →
        Acc files.importedBy G := by
    intro depth r h n hn G hG
    obtain ⟨d2, s2, r2, _, hsd, h3⟩ := hn.reached files depth state r h
    obtain ⟨d3, r4, _, hp⟩ :=
      Expr.parse_returns_of_import files d2 n s2 r2 G h3 (by rw [hsd]; exact hG)
    exact UnitParser.acc_of_parse_returns files d3 G _ r4 hp
  refine ⟨⟨?_, ?_⟩, ?_, ?_⟩
  · rintro ⟨depth, ty, s2, h⟩
    exact hforth depth (ty, s2) h
  · intro hacc
    obtain ⟨d, ⟨ty, s2⟩, h⟩ := hback hacc
    exact ⟨d, ty, s2, h⟩
  · intro hwf
    obtain ⟨d, ⟨ty, s2⟩, h⟩ := hback (fun n _ G _ => hwf.apply G)
    exact ⟨d, ty, s2, fun depth hd => Expr.typecheck_mono files d depth hd e state _ h⟩
  · intro n G hn hG hcyc depth
    rcases h : Expr.typecheck files depth e state with _ | r
    · rfl
    · exact absurd (hforth depth r h n hn G hG) (Files.not_acc_of_cycle files G hcyc)

/-- C18 as amended, at two sets of files.  A chain: the unit
`import * from "a"; { return; };` where `lib/a` reads `import * from "b";`
and `lib/b` reads `return;`; the import relation is well-founded and the
unit returns `Void` from call depth 4 on.  A cycle: `lib/a` reads
`import * from "a";`; the import of `a` returns at no call depth. -/
theorem typecheck_returns_iff_imports_acc_witness :
    (WellFounded Files.chain.importedBy ∧
      (∃ d0 ty s2, ∀ depth, d0 ≤ depth →
        Expr.typecheck Files.chain depth
          (Expr.TopLevel
            ⟨[Expr.Import ⟨"a", [], (0, 4)⟩,
              Expr.Block ⟨⟨[Expr.Return ⟨none, none, (6, 7)⟩], (6, 8)⟩, (5, 9)⟩], (0, 10)⟩)
          (UnitParser.sample [⟨none, true, []⟩]) = some (ty, s2)) ∧
      Expr.typecheck Files.chain 3
          (Expr.TopLevel
            ⟨[Expr.Import ⟨"a", [], (0, 4)⟩,
              Expr.Block ⟨⟨[Expr.Return ⟨none, none, (6, 7)⟩], (6, 8)⟩, (5, 9)⟩], (0, 10)⟩)
          (UnitParser.sample [⟨none, true, []⟩]) = none ∧
      Expr.typecheck Files.chain 4
          (Expr.TopLevel
            ⟨[Expr.Import ⟨"a", [], (0, 4)⟩,
              Expr.Block ⟨⟨[Expr.Return ⟨none, none, (6, 7)⟩], (6, 8)⟩, (5, 9)⟩], (0, 10)⟩)
          (UnitParser.sample [⟨none, true, []⟩])
        = some (Ty.void, UnitParser.sample [⟨none, true, []⟩])) ∧
    (Relation.TransGen Files.selfImport.importedBy
        ⟨"lib", ⟨[Expr.Import ⟨"a", [], (0, 4)⟩], (0, 5)⟩⟩
        ⟨"lib", ⟨[Expr.Import ⟨"a", [], (0, 4)⟩], (0, 5)⟩⟩ ∧
      ∀ depth, Expr.typecheck Files.selfImport depth (Expr.Import ⟨"a", [], (0, 4)⟩)
        (UnitParser.sample [⟨none, true, []⟩]) = none) :=
  ⟨⟨Files.chain_wellFounded,
      (typecheck_returns_iff_imports_acc Files.chain _ _).2.1 Files.chain_wellFounded,
      by decide, by decide⟩,
    Files.selfImport_cycle,
    (typecheck_returns_iff_imports_acc Files.selfImport (Expr.Import ⟨"a", [], (0, 4)⟩)
      (UnitParser.sample [⟨none, true, []⟩])).2.2 ⟨"a", [], (0, 4)⟩
      ⟨"lib", ⟨[Expr.Import ⟨"a", [], (0, 4)⟩], (0, 5)⟩⟩ (Expr.HasImport.here _) rfl
      Files.selfImport_cycle⟩

/-! ## Import grammar -/

end GDML
